import Mathlib

/-!
# Verification of the telco-dashboard supplier metrics and market-analysis engine

Shallow embedding of the analytics core in `src/dashboard_utils.py`
(class `StrategyAnalyzer` and its helper functions) together with the
quadrant-assignment routine duplicated in
`src/pages/2_Strategic_Positioning.py`.

Modelling conventions:

* pandas `DataFrame`s of item records become `List`s of structures;
  `groupby` becomes "list of distinct keys (sorted ascending, as pandas
  `groupby(sort=True)` does) plus per-key `filter`".
* Python floats become `ℚ`.  A float field that can be NaN is `Option ℚ`
  with `none` playing the role of NaN (pandas aggregations such as
  `nunique`/`min` skip NaN; that skipping is modelled explicitly).
* pandas `.round(d)` uses round-half-to-even; `roundTo` implements that
  on `ℚ`.
* `total_price.std()` (sample standard deviation, `ddof=1`) of a
  one-element group is NaN.  Because the square root of a rational is
  in general irrational, the `price_std` field carries the *sample
  variance* (the square of the source's value) instead of the standard
  deviation itself: `none` exactly when the source value is NaN, `some`
  of a nonnegative rational otherwise.  No theorem below depends on the
  magnitude of `price_std` (nor of the `price_volatility` /
  `price_stability` values derived from it), only on its NaN-ness and
  sign, both of which this encoding preserves.
* Python string-to-float conversion (`float(raw)`) is abstracted: a raw
  identifier carries the conversion result as an `Option ℚ` field
  (`none` when the conversion raises `ValueError`/`TypeError`, e.g. for
  a non-numeric string, or when the value is NaN so that the subsequent
  `int(...)` raises).  The truncation `int(...)` and the dictionary
  lookup are modelled exactly.
* The one place where the source can raise — the `category_coverage`
  fallback `(... if max_l3_categories > 0 else 0).round(3)`, which calls
  `.round` on the Python `int` `0` and therefore raises
  `AttributeError` — is modelled with `Except`.
* In `get_top_suppliers_by_category` the aggregates are rounded to two
  decimals *before* the derived divisions, so a denominator can be the
  float `0.0` (a mean or a spend below 0.005 rounds to `0.00`) even
  though every underlying price is positive.  Float division by an
  exact zero yields NaN (`0.0/0.0`) or `+Inf` (`x/0.0`, `x > 0`), and
  NaN/Inf propagate through `round`, `/` and `min` (pandas `min` skips
  NaN but not `+Inf`).  The four affected client-visible fields
  (`price_volatility`, `price_stability`, `market_share_category`,
  `market_presence`) therefore take values in `FVal`
  (finite / NaN / `+Inf`); the case analysis reproduces the float
  outcomes exactly on the values the pipeline can produce (variances
  and rounded means/spends are nonnegative there).  Whether the
  rounded standard deviation is `0.00` — which decides `0.0/0.0` (NaN)
  against `x/0.0` (`+Inf`) when the rounded mean is zero — is decided
  on the variance encoding by `var ≤ 1/40000`, since
  `round2(√var) = 0 ↔ √var ≤ 1/200`.  Finite magnitudes of volatility
  and stability are carried under the variance encoding (no theorem
  reads them); float overflow/underflow and binary representation
  error remain out of scope (floats are exact rationals here).
-/

namespace TelcoDash

/-- Round-half-to-even to an integer (the rounding used by
numpy/pandas `.round`). -/
def rhe (q : ℚ) : ℤ :=
  if q - (⌊q⌋ : ℚ) < 1/2 then ⌊q⌋
  else if 1/2 < q - (⌊q⌋ : ℚ) then ⌊q⌋ + 1
  else if ⌊q⌋ % 2 = 0 then ⌊q⌋ else ⌊q⌋ + 1

/-- pandas `.round(d)`: round-half-to-even at `d` decimal digits. -/
def roundTo (d : ℕ) (q : ℚ) : ℚ :=
  ((rhe (q * (10 : ℚ) ^ d) : ℚ)) / (10 : ℚ) ^ d

/-- Python `int(x)` on a float: truncation toward zero. -/
def intTrunc (q : ℚ) : ℤ :=
  if 0 ≤ q then ⌊q⌋ else ⌈q⌉

/-- A raw supplier identifier as found in `items_df['supplier_id']`.
`repr` is its textual form (used in sentinel names), `isna` is
`pd.isna` on it, and `val` is the result of Python `float(raw)` when
the chain `int(float(raw))` succeeds (`none` when that chain raises
`ValueError`/`TypeError`, which includes the NaN case, where
`int(nan)` raises). -/
structure RawId where
  rawRepr : String
  isna : Bool
  val : Option ℚ
  deriving DecidableEq

/-- One row of the raw `items_df` table (the fields the engine reads). -/
structure RawItem where
  supplier_id : RawId
  total_price : Option ℚ     -- `none` = NaN
  contract_number : Option String
  class_l1 : Option String
  class_l2 : Option String
  class_l3 : Option String
  deriving DecidableEq

/-- One row of the `suppliers_df` master table.  `idNum` abstracts the
Python conversion `int(float(str(id).replace("supplier_", "")))`:
`some q` when it succeeds with value `q` (before truncation), `none`
when it raises. -/
structure SupplierRow where
  idRepr : String
  idIsna : Bool
  idNum : Option ℚ
  display_name : String
  deriving DecidableEq

/-- The `supplier_mapping` dict of `_standardize_supplier_names`:
rows whose id is not NA, starts with `"supplier_"` and converts
numerically are entered (later rows overwrite earlier ones, as Python
dict assignment does). -/
def supplierMapping (rows : List SupplierRow) : ℤ → Option String :=
  rows.foldl
    (fun acc row =>
      if ¬row.idIsna ∧ row.idRepr.startsWith "supplier_" ∧ row.idNum.isSome then
        fun n => if n = intTrunc (row.idNum.getD 0) then some row.display_name else acc n
      else acc)
    (fun _ => none)

/-- `map_supplier_id_to_name` from `_standardize_supplier_names`:
`int(float(supplier_id))` then dict lookup with the
`Unknown_Supplier_<id>` default; conversion failure yields
`Invalid_Supplier_<raw>`. -/
def map_supplier_id_to_name (mapping : ℤ → Option String) (sid : RawId) : String :=
  match sid.val with
  | some q =>
      match mapping (intTrunc q) with
      | some name => name
      | none => "Unknown_Supplier_" ++ toString (intTrunc q)
  | none => "Invalid_Supplier_" ++ sid.rawRepr

/-- An item row after `_standardize_supplier_names` added the
`supplier_display_name` column. -/
structure StdItem where
  supplier_display_name : String
  supplierIsna : Bool
  total_price : Option ℚ
  contract_number : Option String
  class_l1 : Option String
  class_l2 : Option String
  class_l3 : Option String
  deriving DecidableEq

/-- `_standardize_supplier_names`: add the display-name column. -/
def standardizeItems (suppliers : List SupplierRow) (items : List RawItem) :
    List StdItem :=
  let mapping := supplierMapping suppliers
  items.map (fun it =>
    { supplier_display_name := map_supplier_id_to_name mapping it.supplier_id
      supplierIsna := it.supplier_id.isna
      total_price := it.total_price
      contract_number := it.contract_number
      class_l1 := it.class_l1
      class_l2 := it.class_l2
      class_l3 := it.class_l3 })

/-- A cleaned item row: `total_price` is known non-NaN (the cleaning
filter dropped NaN prices), so it is a plain `ℚ` here. -/
structure CItem where
  supplier : String
  total_price : ℚ
  contract_number : Option String
  class_l1 : Option String
  class_l2 : Option String
  class_l3 : Option String
  deriving DecidableEq

/-- `_clean_data`: keep rows with non-NaN strictly positive
`total_price` and non-NaN `supplier_id`. -/
def cleanData (items : List StdItem) : List CItem :=
  items.filterMap (fun it =>
    match it.total_price with
    | some p =>
        if 0 < p ∧ it.supplierIsna = false then
          some { supplier := it.supplier_display_name
                 total_price := p
                 contract_number := it.contract_number
                 class_l1 := it.class_l1
                 class_l2 := it.class_l2
                 class_l3 := it.class_l3 }
        else none
    | none => none)

/-- The analyzer state after `__init__`: the cleaned item table and the
portfolio total (`self.total_market_value`).  `itemsDf` keeps the
standardized raw table (`self.items_df`), unused by the calculators but
part of the observable state. -/
structure Analyzer where
  itemsDf : List StdItem
  itemsClean : List CItem
  totalMarketValue : ℚ
  deriving DecidableEq

/-- `StrategyAnalyzer.__init__`. -/
def mkAnalyzer (suppliers : List SupplierRow) (items : List RawItem) : Analyzer :=
  let std := standardizeItems suppliers items
  let clean := cleanData std
  { itemsDf := std
    itemsClean := clean
    totalMarketValue := (clean.map (fun it => it.total_price)).sum }

/-- One category-level filter, e.g.
`df_filtered[df_filtered['class_l1'] == value]`, guarded by
`if value and value != "All"` (Python truthiness: `None` and the empty
string pass through). -/
def applyFilter (proj : CItem → Option String) (f : Option String)
    (df : List CItem) : List CItem :=
  match f with
  | none => df
  | some v => if v = "All" ∨ v = "" then df
              else df.filter (fun it => proj it == some v)

/-- The three hierarchical category filters applied in order. -/
def applyFilters (df : List CItem) (f1 f2 f3 : Option String) : List CItem :=
  applyFilter (fun it => it.class_l3) f3
    (applyFilter (fun it => it.class_l2) f2
      (applyFilter (fun it => it.class_l1) f1 df))

/-- The group of a supplier key: `groupby('supplier_display_name')`
restricted to one key. -/
def grp (df : List CItem) (k : String) : List CItem :=
  df.filter (fun it => it.supplier == k)

/-- The groupby keys: distinct supplier names, sorted ascending as
pandas `groupby(sort=True)` produces them. -/
def keysOf (df : List CItem) : List String :=
  ((df.map (fun it => it.supplier)).dedup).mergeSort (fun a b => decide (a ≤ b))

/-- Sum of `total_price` over a supplier's group (`'sum'` aggregate). -/
def spendOf (df : List CItem) (k : String) : ℚ :=
  ((grp df k).map (fun it => it.total_price)).sum

/-- Mean of `total_price` over a list of items (`'mean'` aggregate). -/
def meanPrice (g : List CItem) : ℚ :=
  (g.map (fun it => it.total_price)).sum / (g.length : ℚ)

/-- Sample variance (`ddof=1`) of `total_price` over a group: the
square of the source's `'std'` aggregate; `none` models the NaN that
`std` yields on a one-element group.  See the header comment. -/
def priceVar (g : List CItem) : Option ℚ :=
  if 2 ≤ g.length then
    some ((g.map (fun it => (it.total_price - meanPrice g) ^ 2)).sum
            / ((g.length : ℚ) - 1))
  else none

/-- `'nunique'` on `contract_number` (NaN values are skipped). -/
def nContracts (g : List CItem) : ℕ :=
  ((g.filterMap (fun it => it.contract_number)).dedup).length

/-- `'nunique'` on `class_l3` (NaN values are skipped). -/
def nL3 (g : List CItem) : ℕ :=
  ((g.filterMap (fun it => it.class_l3)).dedup).length

/-- Minimum of a nonempty rational list (pandas `Series.min`);
the default for the empty list is never reached by the callers. -/
def qmin : List ℚ → ℚ
  | [] => 0
  | x :: xs => xs.foldl min x

/-- Maximum of a nonempty rational list (pandas `Series.max`). -/
def qmax : List ℚ → ℚ
  | [] => 0
  | x :: xs => xs.foldl max x

/-- Maximum of a nonempty natural list (`Series.max` on an int
column). -/
def nmax : List ℕ → ℕ
  | [] => 0
  | x :: xs => xs.foldl max x

/-- `assign_quadrant` as written in
`dashboard_utils.calculate_supplier_metrics` (note the singular
`'Critical Negotiation'`). -/
def assign_quadrant (pc sn : ℚ) : String :=
  if pc ≥ 1/2 ∧ sn ≥ 1/2 then "Strategic Partners"
  else if pc ≥ 1/2 ∧ sn < 1/2 then "Leverage Opportunities"
  else if pc < 1/2 ∧ sn ≥ 1/2 then "Critical Negotiation"
  else "Rationalize/Exit"

/-- `assign_quadrant` as duplicated in
`pages/2_Strategic_Positioning.py` (plural `'Critical
Negotiations'`). -/
def page_assign_quadrant (pc sn : ℚ) : String :=
  if pc ≥ 1/2 ∧ sn ≥ 1/2 then "Strategic Partners"
  else if pc ≥ 1/2 ∧ sn < 1/2 then "Leverage Opportunities"
  else if pc < 1/2 ∧ sn ≥ 1/2 then "Critical Negotiations"
  else "Rationalize/Exit"

/-- One output row of `calculate_supplier_metrics`. -/
structure SMRow where
  supplier_name : String
  mean_total_price : ℚ
  items_count : ℕ
  price_std : Option ℚ
  total_spending : ℚ
  contracts_count : ℕ
  l3_categories : ℕ
  avg_price : ℚ
  price_competitiveness : ℚ
  spending_normalized : ℚ
  quadrant : String
  deriving DecidableEq

/-- The raw price-competitiveness score of one supplier
(`(overall_mean - supplier_mean) / overall_mean`), parameterized by
the supplier's (possibly rounded) mean. -/
def rawComp (overallMean supMean : ℚ) : ℚ :=
  (overallMean - supMean) / overallMean

/-- Min-max normalization with the 0.5 fallback of both calculators:
`(x - min)/(max - min)` rounded to 3 digits when `max ≠ min`, the
constant `0.5` otherwise. -/
def normComp (minS maxS x : ℚ) : ℚ :=
  if maxS ≠ minS then roundTo 3 ((x - minS) / (maxS - minS)) else 1/2

/-- One row of the body of `calculate_supplier_metrics`, given the
filtered table and the precomputed normalization constants. -/
def sm_row (df : List CItem) (overallMean minS maxS maxSpend : ℚ)
    (k : String) : SMRow :=
  let g := grp df k
  let pc := normComp minS maxS (rawComp overallMean (meanPrice g))
  let sn := roundTo 3 (spendOf df k / maxSpend)
  { supplier_name := k
    mean_total_price := meanPrice g
    items_count := g.length
    price_std := priceVar g
    total_spending := spendOf df k
    contracts_count := nContracts g
    l3_categories := nL3 g
    avg_price := meanPrice g
    price_competitiveness := pc
    spending_normalized := sn
    quadrant := assign_quadrant pc sn }

/-- The raw competitiveness scores of all suppliers of the filtered
set, in key order (`price_comp_raw` of `calculate_supplier_metrics`;
the overall mean is `df_filtered['total_price'].mean()`). -/
def rawListOf (df : List CItem) : List ℚ :=
  (keysOf df).map (fun k => rawComp (meanPrice df) (meanPrice (grp df k)))

/-- The per-supplier spending totals in key order. -/
def spendListOf (df : List CItem) : List ℚ :=
  (keysOf df).map (fun k => spendOf df k)

/-- The nonempty branch of `calculate_supplier_metrics`. -/
def sm_rows (df : List CItem) : List SMRow :=
  (keysOf df).map
    (sm_row df (meanPrice df) (qmin (rawListOf df)) (qmax (rawListOf df))
      (qmax (spendListOf df)))

/-- `StrategyAnalyzer.calculate_supplier_metrics`. -/
def calculate_supplier_metrics (a : Analyzer)
    (f1 f2 f3 : Option String) : List SMRow :=
  let df := applyFilters a.itemsClean f1 f2 f3
  if df = [] then [] else sm_rows df

/-- `sort_values(ascending=False)` on a keyed series: descending order
of the value component. -/
def sortPairsDesc (ps : List (String × ℚ)) : List (String × ℚ) :=
  ps.mergeSort (fun a b => decide (b.2 ≤ a.2))

/-- The `interpret_hhi` helper of `calculate_market_overview`. -/
def interpret_hhi (hhi : ℚ) : String :=
  if hhi < 1500 then "Competitive Market"
  else if hhi < 2500 then "Moderately Concentrated"
  else "Highly Concentrated"

/-- The 80%-control loop of `calculate_market_overview`: walk the
share list accumulating, stop (inclusive) once the running total
reaches 80. -/
def control80 : ℚ → ℕ → List ℚ → ℕ
  | _, cnt, [] => cnt
  | cum, cnt, s :: rest =>
      if cum + s ≥ 80 then cnt + 1 else control80 (cum + s) (cnt + 1) rest

/-- The snapshot returned by `calculate_market_overview`. -/
structure MarketOverview where
  total_items : ℕ
  total_suppliers : ℕ
  total_contracts : ℕ
  total_market_value : ℚ
  supplier_market_share : List (String × ℚ)
  category_market_share : List (String × ℚ)
  hhi_suppliers : ℚ
  hhi_interpretation : String
  hhi_by_category : List (String × ℚ)
  top_10_concentration : ℚ
  control_80_suppliers : ℕ
  deriving DecidableEq

/-- Distinct non-NaN `class_l1` values in first-occurrence order
(pandas `.dropna().unique()`). -/
def l1Values (df : List CItem) : List String :=
  (df.filterMap (fun it => it.class_l1)).eraseDups

/-- Sum of `total_price` over the items of one `class_l1` category
group (`groupby('class_l1')` restricted to one key). -/
def l1SpendOf (df : List CItem) (c : String) : ℚ :=
  ((df.filter (fun it => it.class_l1 == some c)).map
    (fun it => it.total_price)).sum

/-- `StrategyAnalyzer.calculate_market_overview`. -/
def calculate_market_overview (a : Analyzer) : MarketOverview :=
  let ic := a.itemsClean
  let supplierSpending :=
    sortPairsDesc ((keysOf ic).map (fun k => (k, spendOf ic k)))
  let supplierShare :=
    supplierSpending.map
      (fun p => (p.1, roundTo 2 (p.2 / a.totalMarketValue * 100)))
  let l1Keys :=
    ((ic.filterMap (fun it => it.class_l1)).dedup).mergeSort
      (fun a b => decide (a ≤ b))
  let categorySpending := sortPairsDesc (l1Keys.map (fun c => (c, l1SpendOf ic c)))
  let categoryShare :=
    categorySpending.map
      (fun p => (p.1, roundTo 2 (p.2 / a.totalMarketValue * 100)))
  let hhi := (supplierShare.map (fun p => p.2 ^ 2)).sum
  let hhiByCat :=
    (l1Values ic).filterMap (fun c =>
      let catData := ic.filter (fun it => it.class_l1 == some c)
      let catPairs := (keysOf catData).map (fun k => (k, spendOf catData k))
      let catTotal := (catPairs.map (fun p => p.2)).sum
      if 0 < catTotal then
        some (c, ((catPairs.map (fun p => (p.2 / catTotal * 100) ^ 2)).sum))
      else none)
  { total_items := ic.length
    total_suppliers := ((ic.map (fun it => it.supplier)).dedup).length
    total_contracts := ((ic.filterMap (fun it => it.contract_number)).dedup).length
    total_market_value := a.totalMarketValue
    supplier_market_share := supplierShare
    category_market_share := categoryShare
    hhi_suppliers := hhi
    hhi_interpretation := interpret_hhi hhi
    hhi_by_category := hhiByCat
    top_10_concentration := ((supplierShare.take 10).map (fun p => p.2)).sum
    control_80_suppliers := control80 0 0 (supplierShare.map (fun p => p.2)) }

/-- pandas `Series.quantile(q)` with the default linear interpolation:
position `h = q*(n-1)` on the ascending-sorted values, linear
interpolation between the neighbouring order statistics.  The callers
only reach it with a nonempty list. -/
def quantileQ (l : List ℚ) (q : ℚ) : ℚ :=
  let s := l.mergeSort (fun a b => decide (a ≤ b))
  match s with
  | [] => 0
  | _ =>
      let h := ((s.length - 1 : ℕ) : ℚ) * q
      let i := (⌊h⌋).toNat
      let lo := s.getD i 0
      let hi := s.getD (i + 1) lo
      lo + (h - (⌊h⌋ : ℚ)) * (hi - lo)

/-- `classify_size` (tertile split of spending). -/
def classify_size (spending33 spending66 spending : ℚ) : String :=
  if spending ≥ spending66 then "Large"
  else if spending ≥ spending33 then "Medium"
  else "Small"

/-- `classify_performance` (fixed competitiveness thresholds). -/
def classify_performance (score : ℚ) : String :=
  if score ≥ 3/4 then "Excellent"
  else if score ≥ 1/2 then "Good"
  else "Average"

/-- `classify_engagement` (tertile split of contract count). -/
def classify_engagement (c33 c66 contracts : ℚ) : String :=
  if contracts ≥ c66 then "High"
  else if contracts ≥ c33 then "Medium"
  else "Low"

/-- `classify_specialization` (fixed L3-count thresholds). -/
def classify_specialization (l3Count : ℕ) : String :=
  if l3Count ≤ 3 then "Specialist"
  else if l3Count ≤ 6 then "Focused"
  else "Diversified"

/-- The value of a float expression that can be NaN or `+Inf` (the
only non-finite values the ranking engine's divisions can produce:
every numerator and denominator there is nonnegative). -/
inductive FVal where
  | fin (q : ℚ)
  | nan
  | pinf
  deriving DecidableEq

/-- One output row of `get_top_suppliers_by_category`. -/
structure TopRow where
  supplier_name : String
  mean_total_price : ℚ
  items_count : ℕ
  price_std : Option ℚ
  total_spending : ℚ
  contracts_count : ℕ
  l3_categories : ℕ
  avg_price : ℚ
  price_competitiveness : ℚ
  market_share_category : FVal
  market_presence : FVal
  category_coverage : ℚ
  price_volatility : FVal
  price_stability : FVal
  supplier_size : String
  performance_level : String
  engagement_level : String
  specialization_focus : String
  deriving DecidableEq

/-- The per-supplier base aggregates of `get_top_suppliers_by_category`
after `.agg(...).round(2)` (the counts are integers, which `.round(2)`
leaves unchanged; `price_std` keeps the variance encoding of the
header comment). -/
structure TopBase where
  key : String
  meanR : ℚ          -- mean_total_price, rounded to 2
  itemsCount : ℕ
  priceStd : Option ℚ
  spendR : ℚ         -- total_spending, rounded to 2
  contractsCount : ℕ
  l3Categories : ℕ
  deriving DecidableEq

/-- Build one `TopBase` from a group. -/
def topBase (df : List CItem) (k : String) : TopBase :=
  let g := grp df k
  { key := k
    meanR := roundTo 2 (meanPrice g)
    itemsCount := g.length
    priceStd := priceVar g
    spendR := roundTo 2 (spendOf df k)
    contractsCount := nContracts g
    l3Categories := nL3 g }

/-- `price_volatility = price_std / avg_price` for one supplier, with
float semantics.  `avg_price` is the *rounded* mean (`b.meanR`, which
is `0.0` when the true mean is below 0.005); the numerator is the
rounded standard deviation, NaN for a single-item group.  When the
denominator is `0.0`: `0.0/0.0` is NaN and `x/0.0` (`x > 0`) is
`+Inf`; whether the rounded std is `0.00` is `var ≤ 1/40000` under the
variance encoding (`round2(√var) = 0 ↔ √var ≤ 1/200`).  The finite
magnitude is carried as `var / meanR` (see the header comment). -/
def volOf (b : TopBase) : FVal :=
  match b.priceStd with
  | none => FVal.nan
  | some v =>
      if b.meanR = 0 then
        (if v ≤ 1/40000 then FVal.nan else FVal.pinf)
      else FVal.fin (v / b.meanR)

/-- The finite part of an `FVal`. -/
def finPart : FVal → Option ℚ
  | FVal.fin q => some q
  | _ => none

/-- Whether an `FVal` is `+Inf`. -/
def isPinf : FVal → Bool
  | FVal.pinf => true
  | _ => false

/-- pandas `Series.min()` over the volatility column: NaN entries are
skipped (all-NaN gives NaN), `+Inf` participates and loses to every
finite value. -/
def minVolF (vols : List FVal) : FVal :=
  match vols.filterMap finPart with
  | q :: qs => FVal.fin (qs.foldl min q)
  | [] => if vols.any isPinf then FVal.pinf else FVal.nan

/-- `max_stability = 1 / (min_volatility + 0.001)` with float
semantics: NaN propagates, and `1/(Inf + 0.001) = 0.0`.  A finite
minimum is a minimum of nonnegative volatilities on every reachable
input, so the finite branch divides by a positive number. -/
def maxStabF (mv : FVal) : FVal :=
  match mv with
  | FVal.nan => FVal.nan
  | FVal.pinf => FVal.fin 0
  | FVal.fin m => FVal.fin (1 / (m + 1/1000))

/-- `price_stability = (1/(volatility + 0.001) / max_stability).round(3)`
with float semantics.  A NaN volatility gives NaN; an infinite
volatility gives the numerator `1/(Inf + 0.001) = 0.0`, so the result
is `0.0/0.0 = NaN` when `max_stability` is `0.0` and the finite `0.0`
otherwise; a finite volatility divides two positive finite numbers
(`max_stability` is then `1/(min + 0.001) > 0`). -/
def stabF (vol maxStab : FVal) : FVal :=
  match vol with
  | FVal.nan => FVal.nan
  | FVal.pinf =>
      match maxStab with
      | FVal.nan => FVal.nan
      | FVal.pinf => FVal.fin 0
      | FVal.fin t => if t = 0 then FVal.nan else FVal.fin 0
  | FVal.fin v =>
      match maxStab with
      | FVal.nan => FVal.nan
      | FVal.pinf => FVal.fin 0
      | FVal.fin t => FVal.fin (roundTo 3 (1 / (v + 1/1000) / t))

/-- Assemble one output row of `get_top_suppliers_by_category` from a
surviving supplier's base aggregates and the cohort-level constants.
`catTotal` and `maxSpendAll` are the sum/maximum of the *rounded*
spends of the survivors; each rounded spend is nonnegative (a rounded
sum of positive prices), so either of them is `0.0` only when every
rounded spend is `0.0`, in which case the division is `0.0/0.0` = NaN
for every row. -/
def top_row (catMean minS maxS catTotal maxSpendAll : ℚ) (maxL3 : ℕ)
    (minVol : FVal) (spending33 spending66 c33 c66 : ℚ)
    (b : TopBase) : TopRow :=
  let pc := normComp minS maxS (rawComp catMean b.meanR)
  let vol := volOf b
  { supplier_name := b.key
    mean_total_price := b.meanR
    items_count := b.itemsCount
    price_std := b.priceStd
    total_spending := b.spendR
    contracts_count := b.contractsCount
    l3_categories := b.l3Categories
    avg_price := b.meanR
    price_competitiveness := pc
    market_share_category :=
      if catTotal = 0 then FVal.nan
      else FVal.fin (roundTo 2 (b.spendR / catTotal * 100))
    market_presence :=
      if maxSpendAll = 0 then FVal.nan
      else FVal.fin (roundTo 3 (b.spendR / maxSpendAll))
    category_coverage := roundTo 3 ((b.l3Categories : ℚ) / (maxL3 : ℚ))
    price_volatility := vol
    price_stability := stabF vol (maxStabF minVol)
    supplier_size := classify_size spending33 spending66 b.spendR
    performance_level := classify_performance pc
    engagement_level := classify_engagement c33 c66 (b.contractsCount : ℚ)
    specialization_focus := classify_specialization b.l3Categories }

/-- The per-supplier base aggregates of the filtered set, in key
order. -/
def topBasesOf (df : List CItem) : List TopBase :=
  (keysOf df).map (topBase df)

/-- The suppliers surviving the `min_items` and `min_contracts`
threshold filters. -/
def survivorsOf (df : List CItem) (min_items min_contracts : ℕ) : List TopBase :=
  (topBasesOf df).filter
    (fun b => decide (min_items ≤ b.itemsCount ∧ min_contracts ≤ b.contractsCount))

/-- The raw competitiveness scores of the surviving suppliers
(`price_comp_raw` of `get_top_suppliers_by_category`; the category
mean is over the whole filtered set). -/
def topRawList (df : List CItem) (min_items min_contracts : ℕ) : List ℚ :=
  (survivorsOf df min_items min_contracts).map
    (fun b => rawComp (meanPrice df) b.meanR)

/-- The surviving suppliers' (rounded) spending totals. -/
def survSpendList (df : List CItem) (min_items min_contracts : ℕ) : List ℚ :=
  (survivorsOf df min_items min_contracts).map (fun b => b.spendR)

/-- `price_volatility.min()` over the survivors (see `minVolF`). -/
def minVolOf (df : List CItem) (min_items min_contracts : ℕ) : FVal :=
  minVolF ((survivorsOf df min_items min_contracts).map volOf)

/-- The maximum distinct-L3 count among survivors. -/
def maxL3Of (df : List CItem) (min_items min_contracts : ℕ) : ℕ :=
  nmax ((survivorsOf df min_items min_contracts).map (fun b => b.l3Categories))

/-- The assembled (unsorted) output rows of
`get_top_suppliers_by_category`. -/
def topRowsOf (df : List CItem) (min_items min_contracts : ℕ) : List TopRow :=
  (survivorsOf df min_items min_contracts).map
    (top_row (meanPrice df)
      (qmin (topRawList df min_items min_contracts))
      (qmax (topRawList df min_items min_contracts))
      (survSpendList df min_items min_contracts).sum
      (qmax (survSpendList df min_items min_contracts))
      (maxL3Of df min_items min_contracts)
      (minVolOf df min_items min_contracts)
      (quantileQ (survSpendList df min_items min_contracts) (33/100))
      (quantileQ (survSpendList df min_items min_contracts) (66/100))
      (quantileQ ((survivorsOf df min_items min_contracts).map
        (fun b => (b.contractsCount : ℚ))) (33/100))
      (quantileQ ((survivorsOf df min_items min_contracts).map
        (fun b => (b.contractsCount : ℚ))) (66/100)))

/-- `StrategyAnalyzer.get_top_suppliers_by_category`.  The
`AttributeError` that the source raises when `max_l3_categories` is 0
(the fallback `(... else 0).round(3)` calls `.round` on the Python
`int` `0`) is modelled by the `Except.error` branch; it aborts the
whole call in the source, so it is hoisted before row assembly here. -/
def get_top_suppliers_by_category (a : Analyzer) (l1 l2 l3 : Option String)
    (min_items min_contracts : ℕ) (top_n : ℕ) :
    Except String (List TopRow) :=
  let df := applyFilters a.itemsClean l1 l2 l3
  if df = [] then Except.ok [] else
  if survivorsOf df min_items min_contracts = [] then Except.ok [] else
  if maxL3Of df min_items min_contracts = 0 then
    Except.error "AttributeError: int object has no attribute round"
  else
    Except.ok (((topRowsOf df min_items min_contracts).mergeSort
      (fun x y => decide (y.price_competitiveness ≤ x.price_competitiveness))).take
        top_n)

/-- State-passing form of `calculate_supplier_metrics`: the method
body reads `self` but never assigns to any of its fields, so the
post-state is the pre-state. -/
def calculate_supplier_metrics_st (a : Analyzer) (f1 f2 f3 : Option String) :
    List SMRow × Analyzer :=
  (calculate_supplier_metrics a f1 f2 f3, a)

/-- State-passing form of `get_top_suppliers_by_category`: the method
body reads `self` but never assigns to any of its fields, so the
post-state is the pre-state. -/
def get_top_suppliers_st (a : Analyzer) (l1 l2 l3 : Option String)
    (min_items min_contracts top_n : ℕ) :
    Except String (List TopRow) × Analyzer :=
  (get_top_suppliers_by_category a l1 l2 l3 min_items min_contracts top_n, a)

/-! ## Concrete example inputs used by witnesses and counterexamples -/

/-- A two-row supplier master table mapping ids 1 and 2 to the display
names `"A"` and `"B"`. -/
def exSuppliers : List SupplierRow :=
  [⟨"supplier_1", false, some 1, "A"⟩, ⟨"supplier_2", false, some 2, "B"⟩]

/-- Two items: supplier 1 at price 100, supplier 2 at price 300. -/
def exItemsA : List RawItem :=
  [⟨⟨"1", false, some 1⟩, some 100, some "c1", some "HW", none, none⟩,
   ⟨⟨"2", false, some 2⟩, some 300, some "c2", some "HW", none, none⟩]

/-- Analyzer over `exItemsA`. -/
def exA : Analyzer := mkAnalyzer exSuppliers exItemsA

/-- The first output row of `calculate_supplier_metrics exA`:
supplier `"A"`, competitiveness 1, normalized spending 0.333. -/
def exRowA : SMRow :=
  ⟨"A", 100, 1, none, 100, 1, 0, 100, 1, 333/1000, "Leverage Opportunities"⟩

/-- Two items with identical prices so that both suppliers have the
same mean price. -/
def exItemsEq : List RawItem :=
  [⟨⟨"1", false, some 1⟩, some 100, some "c1", some "HW", none, none⟩,
   ⟨⟨"2", false, some 2⟩, some 100, some "c2", some "HW", none, none⟩]

/-- Analyzer over `exItemsEq`. -/
def exEq : Analyzer := mkAnalyzer exSuppliers exItemsEq

/-- The first output row of `calculate_supplier_metrics exEq`: in the
all-tied case every supplier gets competitiveness 0.5. -/
def exRowEqA : SMRow :=
  ⟨"A", 100, 1, none, 100, 1, 0, 100, 1/2, 1, "Strategic Partners"⟩

/-- Five items of supplier 1, prices 100..104, one contract, with an
L3 classification (so the ranking engine does not hit the
`category_coverage` crash). -/
def exItemsTop : List RawItem :=
  [⟨⟨"1", false, some 1⟩, some 100, some "c", some "HW", none, some "cat"⟩,
   ⟨⟨"1", false, some 1⟩, some 101, some "c", some "HW", none, some "cat"⟩,
   ⟨⟨"1", false, some 1⟩, some 102, some "c", some "HW", none, some "cat"⟩,
   ⟨⟨"1", false, some 1⟩, some 103, some "c", some "HW", none, some "cat"⟩,
   ⟨⟨"1", false, some 1⟩, some 104, some "c", some "HW", none, some "cat"⟩]

/-- Analyzer over `exItemsTop`. -/
def exTop : Analyzer := mkAnalyzer exSuppliers exItemsTop

/-- The single output row of
`get_top_suppliers_by_category exTop none none none 5 1 3`. -/
def exTopRow : TopRow :=
  ⟨"A", 102, 5, some (5/2), 510, 1, 1, 102, 1/2,
   FVal.fin 100, FVal.fin 1, 1,
   FVal.fin (5/204), FVal.fin 1, "Large", "Good", "High", "Specialist"⟩

/-- Two items of one supplier, each priced 0.004: positive prices that
survive cleaning, but whose mean rounds to `0.00`, so
`price_volatility = 0.0/0.0` is NaN with `items_count = 2`. -/
def exSubCent : Analyzer := mkAnalyzer exSuppliers
  [⟨⟨"1", false, some 1⟩, some (4/1000), some "c", some "HW", none, some "cat"⟩,
   ⟨⟨"1", false, some 1⟩, some (4/1000), some "c", some "HW", none, some "cat"⟩]

/-- Two items of one supplier priced 0.0001 and 0.0097: the mean
rounds to `0.00` but the standard deviation rounds to `0.01`, so
`price_volatility = 0.01/0.0` is `+Inf`. -/
def exSubCentInf : Analyzer := mkAnalyzer exSuppliers
  [⟨⟨"1", false, some 1⟩, some (1/10000), some "c", some "HW", none, some "cat"⟩,
   ⟨⟨"1", false, some 1⟩, some (97/10000), some "c", some "HW", none, some "cat"⟩]

/-- The items of `exItemsTop` with the L3 classification missing for
every row: every surviving supplier then has `l3_categories = 0`. -/
def exItemsNoL3 : List RawItem :=
  [⟨⟨"1", false, some 1⟩, some 100, some "c", some "HW", none, none⟩,
   ⟨⟨"1", false, some 1⟩, some 101, some "c", some "HW", none, none⟩,
   ⟨⟨"1", false, some 1⟩, some 102, some "c", some "HW", none, none⟩,
   ⟨⟨"1", false, some 1⟩, some 103, some "c", some "HW", none, none⟩,
   ⟨⟨"1", false, some 1⟩, some 104, some "c", some "HW", none, none⟩]

/-- Analyzer over `exItemsNoL3`. -/
def exNoL3 : Analyzer := mkAnalyzer exSuppliers exItemsNoL3

/-- Three-supplier master table with display names `"A"`, `"B"`,
`"C"`. -/
def exSuppliers3 : List SupplierRow :=
  [⟨"supplier_1", false, some 1, "A"⟩, ⟨"supplier_2", false, some 2, "B"⟩,
   ⟨"supplier_3", false, some 3, "C"⟩]

/-- Three items of three distinct suppliers, each with price 1, so
every market share is 100/3 %. -/
def exItems3 : List RawItem :=
  [⟨⟨"1", false, some 1⟩, some 1, some "c", some "HW", none, none⟩,
   ⟨⟨"2", false, some 2⟩, some 1, some "c", some "HW", none, none⟩,
   ⟨⟨"3", false, some 3⟩, some 1, some "c", some "HW", none, none⟩]

/-- Analyzer over `exItems3`. -/
def exC3 : Analyzer := mkAnalyzer exSuppliers3 exItems3

/-- The `i`-th raw supplier id text of the large portfolio: `i`
repetitions of `'a'` (distinct ids of distinct lengths). -/
def bigRepr (i : ℕ) : String := String.mk (List.replicate i 'a')

/-- One item of the large portfolio: an unconvertible supplier id
(`float` raises on it) and price 1. -/
def bigRaw (i : ℕ) : RawItem :=
  ⟨⟨bigRepr i, false, none⟩, some 1, some "c", none, none, none⟩

/-- 6667 one-item suppliers, each with total price 1. -/
def bigItems : List RawItem := (List.range 6667).map bigRaw

/-- Analyzer over `bigItems` (no supplier master rows, so every id
resolves to its `Invalid_Supplier_<raw>` sentinel). -/
def bigA : Analyzer := mkAnalyzer [] bigItems

/-- The display name the standardizer produces for the `i`-th raw
id. -/
def bigName (i : ℕ) : String := "Invalid_Supplier_" ++ bigRepr i

/-- The cleaned item the pipeline produces for the `i`-th raw item. -/
def bigC (i : ℕ) : CItem := ⟨bigName i, 1, some "c", none, none, none⟩

/-- A raw id whose text is `"12"` and whose numeric value is 12. -/
def exIdA : RawId := ⟨"12", false, some 12⟩

/-- A raw id whose text is `"12.9"` and whose numeric value is 12.9
(truncating to 12). -/
def exIdB : RawId := ⟨"12.9", false, some (129/10)⟩

/-- A missing (NaN) raw id: `int(float(nan))` raises, so `val` is
`none`. -/
def exIdNaN : RawId := ⟨"nan", true, none⟩

/-! ## Basic lemmas about the rounding model -/

theorem rhe_ge (q : ℚ) : q - 1/2 ≤ (rhe q : ℚ) := by
  have h1 : (⌊q⌋ : ℚ) ≤ q := Int.floor_le q
  have h2 : q < ⌊q⌋ + 1 := Int.lt_floor_add_one q
  unfold rhe
  split_ifs <;> push_cast <;> linarith

theorem rhe_le (q : ℚ) : (rhe q : ℚ) ≤ q + 1/2 := by
  have h1 : (⌊q⌋ : ℚ) ≤ q := Int.floor_le q
  have h2 : q < ⌊q⌋ + 1 := Int.lt_floor_add_one q
  unfold rhe
  split_ifs <;> push_cast <;> linarith

theorem rhe_nonneg {q : ℚ} (h : 0 ≤ q) : 0 ≤ rhe q := by
  have h1 : (0 : ℤ) ≤ ⌊q⌋ := Int.floor_nonneg.mpr h
  unfold rhe
  split_ifs <;> omega

theorem rhe_le_of_le {q : ℚ} {m : ℤ} (h : q ≤ (m : ℚ)) : rhe q ≤ m := by
  have hf : ⌊q⌋ ≤ m := by
    have := Int.floor_le_floor h
    simpa using this
  have h1 : (⌊q⌋ : ℚ) ≤ q := Int.floor_le q
  unfold rhe
  split_ifs with ha hb hc
  · exact hf
  · have hlt : (⌊q⌋ : ℚ) < q := by linarith
    have hlt2 : (⌊q⌋ : ℚ) < (m : ℚ) := lt_of_lt_of_le hlt h
    have : ⌊q⌋ < m := by exact_mod_cast hlt2
    omega
  · exact hf
  · push_neg at ha
    have hlt : (⌊q⌋ : ℚ) < q := by linarith
    have hlt2 : (⌊q⌋ : ℚ) < (m : ℚ) := lt_of_lt_of_le hlt h
    have : ⌊q⌋ < m := by exact_mod_cast hlt2
    omega

theorem roundTo_nonneg {q : ℚ} (d : ℕ) (h : 0 ≤ q) : 0 ≤ roundTo d q := by
  unfold roundTo
  have hp : (0 : ℚ) < (10 : ℚ) ^ d := by positivity
  have h2 : (0 : ℤ) ≤ rhe (q * (10 : ℚ) ^ d) := rhe_nonneg (by positivity)
  have h3 : (0 : ℚ) ≤ (rhe (q * (10 : ℚ) ^ d) : ℚ) := by exact_mod_cast h2
  positivity

theorem roundTo_le_one {q : ℚ} (d : ℕ) (h : q ≤ 1) : roundTo d q ≤ 1 := by
  unfold roundTo
  have hp : (0 : ℚ) < (10 : ℚ) ^ d := by positivity
  rw [div_le_one hp]
  have h1 : rhe (q * (10 : ℚ) ^ d) ≤ (10 : ℤ) ^ d := by
    apply rhe_le_of_le
    push_cast
    nlinarith
  exact_mod_cast h1

theorem roundTo_sub_le (d : ℕ) (q : ℚ) : roundTo d q - q ≤ 1 / (2 * 10 ^ d) := by
  have hp : (0 : ℚ) < (10 : ℚ) ^ d := by positivity
  have h1 : (rhe (q * (10 : ℚ) ^ d) : ℚ) ≤ q * (10 : ℚ) ^ d + 1/2 :=
    rhe_le _
  have h2 : (rhe (q * (10 : ℚ) ^ d) : ℚ) / (10 : ℚ) ^ d
      ≤ (q * (10 : ℚ) ^ d + 1/2) / (10 : ℚ) ^ d := by gcongr
  have key : (q * (10 : ℚ) ^ d + 1/2) / (10 : ℚ) ^ d - q = 1 / (2 * 10 ^ d) := by
    field_simp
    ring
  unfold roundTo
  linarith

theorem sub_roundTo_le (d : ℕ) (q : ℚ) : q - roundTo d q ≤ 1 / (2 * 10 ^ d) := by
  have hp : (0 : ℚ) < (10 : ℚ) ^ d := by positivity
  have h1 : q * (10 : ℚ) ^ d - 1/2 ≤ (rhe (q * (10 : ℚ) ^ d) : ℚ) :=
    rhe_ge _
  have h2 : (q * (10 : ℚ) ^ d - 1/2) / (10 : ℚ) ^ d
      ≤ (rhe (q * (10 : ℚ) ^ d) : ℚ) / (10 : ℚ) ^ d := by gcongr
  have key : q - (q * (10 : ℚ) ^ d - 1/2) / (10 : ℚ) ^ d = 1 / (2 * 10 ^ d) := by
    field_simp
    ring
  unfold roundTo
  linarith

/-! ## Lemmas about fold-based minima and maxima -/

theorem foldl_min_le_init {α : Type} [LinearOrder α] (xs : List α) (a : α) :
    xs.foldl min a ≤ a := by
  induction xs generalizing a with
  | nil => exact le_refl a
  | cons x xs ih =>
      simp only [List.foldl_cons]
      exact le_trans (ih (min a x)) (min_le_left a x)

theorem foldl_min_le_of_mem {α : Type} [LinearOrder α] {xs : List α} {x : α}
    (a : α) (h : x ∈ xs) : xs.foldl min a ≤ x := by
  induction xs generalizing a with
  | nil => cases h
  | cons y ys ih =>
      simp only [List.foldl_cons]
      rcases List.mem_cons.mp h with rfl | hmem
      · exact le_trans (foldl_min_le_init ys (min a x)) (min_le_right a x)
      · exact ih (min a y) hmem

theorem foldl_min_eq_or_mem {α : Type} [LinearOrder α] (xs : List α) (a : α) :
    xs.foldl min a = a ∨ xs.foldl min a ∈ xs := by
  induction xs generalizing a with
  | nil => exact Or.inl rfl
  | cons x xs ih =>
      simp only [List.foldl_cons]
      rcases ih (min a x) with h | h
      · rcases min_choice a x with h' | h'
        · exact Or.inl (h.trans h')
        · exact Or.inr (by rw [h, h']; exact List.mem_cons_self x xs)
      · exact Or.inr (List.mem_cons_of_mem x h)

theorem foldl_max_le_of_le {α : Type} [LinearOrder α] {xs : List α} {a b : α}
    (ha : a ≤ b) (h : ∀ x ∈ xs, x ≤ b) : xs.foldl max a ≤ b := by
  induction xs generalizing a with
  | nil => exact ha
  | cons x xs ih =>
      simp only [List.foldl_cons]
      exact ih (max_le ha (h x (List.mem_cons_self x xs)))
        (fun y hy => h y (List.mem_cons_of_mem x hy))

theorem init_le_foldl_max {α : Type} [LinearOrder α] (xs : List α) (a : α) :
    a ≤ xs.foldl max a := by
  induction xs generalizing a with
  | nil => exact le_refl a
  | cons x xs ih =>
      simp only [List.foldl_cons]
      exact le_trans (le_max_left a x) (ih (max a x))

theorem le_foldl_max_of_mem {α : Type} [LinearOrder α] {xs : List α} {x : α}
    (a : α) (h : x ∈ xs) : x ≤ xs.foldl max a := by
  induction xs generalizing a with
  | nil => cases h
  | cons y ys ih =>
      simp only [List.foldl_cons]
      rcases List.mem_cons.mp h with rfl | hmem
      · exact le_trans (le_max_right a x) (init_le_foldl_max ys (max a x))
      · exact ih (max a y) hmem

theorem foldl_max_eq_or_mem {α : Type} [LinearOrder α] (xs : List α) (a : α) :
    xs.foldl max a = a ∨ xs.foldl max a ∈ xs := by
  induction xs generalizing a with
  | nil => exact Or.inl rfl
  | cons x xs ih =>
      simp only [List.foldl_cons]
      rcases ih (max a x) with h | h
      · rcases max_choice a x with h' | h'
        · exact Or.inl (h.trans h')
        · exact Or.inr (by rw [h, h']; exact List.mem_cons_self x xs)
      · exact Or.inr (List.mem_cons_of_mem x h)

theorem qmin_le {l : List ℚ} {x : ℚ} (h : x ∈ l) : qmin l ≤ x := by
  cases l with
  | nil => cases h
  | cons y ys =>
      rcases List.mem_cons.mp h with rfl | hmem
      · exact foldl_min_le_init ys x
      · exact foldl_min_le_of_mem y hmem

theorem qmin_mem {l : List ℚ} (h : l ≠ []) : qmin l ∈ l := by
  cases l with
  | nil => exact absurd rfl h
  | cons y ys =>
      rcases foldl_min_eq_or_mem ys y with h' | h'
      · rw [show qmin (y :: ys) = ys.foldl min y from rfl, h']
        exact List.mem_cons_self y ys
      · exact List.mem_cons_of_mem y h'

theorem le_qmax {l : List ℚ} {x : ℚ} (h : x ∈ l) : x ≤ qmax l := by
  cases l with
  | nil => cases h
  | cons y ys =>
      rcases List.mem_cons.mp h with rfl | hmem
      · exact init_le_foldl_max ys x
      · exact le_foldl_max_of_mem y hmem

theorem qmax_mem {l : List ℚ} (h : l ≠ []) : qmax l ∈ l := by
  cases l with
  | nil => exact absurd rfl h
  | cons y ys =>
      rcases foldl_max_eq_or_mem ys y with h' | h'
      · rw [show qmax (y :: ys) = ys.foldl max y from rfl, h']
        exact List.mem_cons_self y ys
      · exact List.mem_cons_of_mem y h'

theorem le_nmax {l : List ℕ} {x : ℕ} (h : x ∈ l) : x ≤ nmax l := by
  cases l with
  | nil => cases h
  | cons y ys =>
      rcases List.mem_cons.mp h with rfl | hmem
      · exact init_le_foldl_max ys x
      · exact le_foldl_max_of_mem y hmem

theorem nmax_mem {l : List ℕ} (h : l ≠ []) : nmax l ∈ l := by
  cases l with
  | nil => exact absurd rfl h
  | cons y ys =>
      rcases foldl_max_eq_or_mem ys y with h' | h'
      · rw [show nmax (y :: ys) = ys.foldl max y from rfl, h']
        exact List.mem_cons_self y ys
      · exact List.mem_cons_of_mem y h'

/-! ## Lemmas about groups and keys -/

theorem mem_keysOf {df : List CItem} {k : String} :
    k ∈ keysOf df ↔ ∃ it ∈ df, it.supplier = k := by
  unfold keysOf
  rw [(List.mergeSort_perm _ _).mem_iff, List.mem_dedup, List.mem_map]

theorem keysOf_nodup (df : List CItem) : (keysOf df).Nodup := by
  unfold keysOf
  exact (List.mergeSort_perm _ _).nodup_iff.mpr (List.nodup_dedup _)

theorem grp_ne_nil {df : List CItem} {k : String} (h : k ∈ keysOf df) :
    grp df k ≠ [] := by
  obtain ⟨it, hit, rfl⟩ := mem_keysOf.mp h
  have : it ∈ grp df it.supplier := by
    unfold grp
    exact List.mem_filter.mpr ⟨hit, by simp⟩
  exact List.ne_nil_of_mem this

theorem grp_subset {df : List CItem} {k : String} {it : CItem}
    (h : it ∈ grp df k) : it ∈ df := List.mem_filter.mp h |>.1

theorem supplier_of_mem_grp {df : List CItem} {k : String} {it : CItem}
    (h : it ∈ grp df k) : it.supplier = k := by
  have := List.mem_filter.mp h |>.2
  simpa using this

theorem supplier_mem_keysOf {df : List CItem} {it : CItem} (h : it ∈ df) :
    it.supplier ∈ keysOf df := mem_keysOf.mpr ⟨it, h, rfl⟩

theorem sum_map_filter_split {α : Type} (l : List α) (p : α → Bool) (f : α → ℚ) :
    ((l.filter p).map f).sum + ((l.filter (fun x => !(p x))).map f).sum
      = (l.map f).sum := by
  induction l with
  | nil => simp
  | cons x xs ih =>
      by_cases h : p x
      · simp only [List.filter_cons, h, if_pos, List.map_cons, List.sum_cons]
        simp only [h, Bool.not_true, if_neg, Bool.false_eq_true, not_false_iff]
        rw [← ih]
        ring
      · have h' : p x = false := by simpa using h
        simp only [List.filter_cons, h', Bool.not_false, List.map_cons,
          List.sum_cons, Bool.false_eq_true, if_false, if_pos]
        rw [← ih]
        ring

theorem spendOf_filter_ne {df : List CItem} {k k' : String} (hne : k' ≠ k) :
    spendOf (df.filter (fun it => !(it.supplier == k))) k' = spendOf df k' := by
  unfold spendOf grp
  rw [List.filter_filter]
  have hfc : ∀ a ∈ df, (a.supplier == k' && !(a.supplier == k))
      = (a.supplier == k') := by
    intro a _
    by_cases h : a.supplier = k' <;> simp [h, hne]
  rw [List.filter_congr hfc]

theorem sum_spend_of_nodup_cover (keys : List String) :
    ∀ (df : List CItem), keys.Nodup → (∀ it ∈ df, it.supplier ∈ keys) →
      (keys.map (fun k => spendOf df k)).sum
        = (df.map (fun it => it.total_price)).sum := by
  induction keys with
  | nil =>
      intro df _ hcov
      cases df with
      | nil => simp
      | cons it rest => exact absurd (hcov it (List.mem_cons_self it rest)) (by simp)
  | cons k ks ih =>
      intro df hnd hcov
      have hsplit := sum_map_filter_split df (fun it => it.supplier == k)
        (fun it => it.total_price)
      have htail : ∀ k' ∈ ks,
          spendOf df k' = spendOf (df.filter (fun it => !(it.supplier == k))) k' := by
        intro k' hk'
        have hne : k' ≠ k := by
          rintro rfl
          exact (List.nodup_cons.mp hnd).1 hk'
        exact (spendOf_filter_ne hne).symm
      have hmap : (ks.map (fun k' => spendOf df k')).sum
          = (ks.map (fun k' => spendOf (df.filter (fun it => !(it.supplier == k))) k')).sum := by
        congr 1
        exact List.map_congr_left htail
      have hih := ih (df.filter (fun it => !(it.supplier == k)))
        (List.nodup_cons.mp hnd).2
        (by
          intro it hit
          have hmem := List.mem_filter.mp hit
          have hsup := hcov it hmem.1
          rcases List.mem_cons.mp hsup with h | h
          · exfalso
            have := hmem.2
            rw [h] at this
            simp at this
          · exact h)
      simp only [List.map_cons, List.sum_cons]
      rw [hmap, hih]
      have hgrp : spendOf df k
          = ((df.filter (fun it => it.supplier == k)).map (fun it => it.total_price)).sum := rfl
      rw [hgrp]
      exact hsplit

theorem sum_spend_keysOf (df : List CItem) :
    ((keysOf df).map (fun k => spendOf df k)).sum
      = (df.map (fun it => it.total_price)).sum := by
  have hperm : List.Perm (keysOf df) ((df.map (fun it => it.supplier)).dedup) :=
    List.mergeSort_perm _ _
  have h1 : ((keysOf df).map (fun k => spendOf df k)).sum
      = (((df.map (fun it => it.supplier)).dedup).map (fun k => spendOf df k)).sum :=
    (hperm.map _).sum_eq
  rw [h1]
  apply sum_spend_of_nodup_cover
  · exact List.nodup_dedup _
  · intro it hit
    rw [List.mem_dedup]
    exact List.mem_map_of_mem _ hit

/-! ## Positivity through the cleaning pipeline -/

theorem cleanData_pos {l : List StdItem} {it : CItem} (h : it ∈ cleanData l) :
    0 < it.total_price := by
  rw [cleanData, List.mem_filterMap] at h
  obtain ⟨a, _, ha⟩ := h
  revert ha
  cases htp : a.total_price with
  | none => simp
  | some p =>
      simp only []
      split_ifs with hc
      · intro hsome
        have := Option.some.inj hsome
        rw [← this]
        exact hc.1
      · simp

theorem applyFilter_subset {proj : CItem → Option String} {f : Option String}
    {df : List CItem} {it : CItem} (h : it ∈ applyFilter proj f df) : it ∈ df := by
  cases f with
  | none => simpa [applyFilter] using h
  | some v =>
      simp only [applyFilter] at h
      by_cases hv : v = "All" ∨ v = ""
      · rw [if_pos hv] at h; exact h
      · rw [if_neg hv] at h; exact List.mem_of_mem_filter h

theorem applyFilters_subset {df : List CItem} {f1 f2 f3 : Option String}
    {it : CItem} (h : it ∈ applyFilters df f1 f2 f3) : it ∈ df :=
  applyFilter_subset (applyFilter_subset (applyFilter_subset h))

theorem sum_prices_pos {g : List CItem} (hne : g ≠ [])
    (hpos : ∀ it ∈ g, 0 < it.total_price) :
    0 < (g.map (fun it => it.total_price)).sum := by
  apply List.sum_pos
  · intro x hx
    obtain ⟨it, hit, rfl⟩ := List.mem_map.mp hx
    exact hpos it hit
  · simpa using hne

theorem meanPrice_pos {g : List CItem} (hne : g ≠ [])
    (hpos : ∀ it ∈ g, 0 < it.total_price) : 0 < meanPrice g := by
  unfold meanPrice
  apply div_pos (sum_prices_pos hne hpos)
  have : 0 < g.length := List.length_pos.mpr hne
  exact_mod_cast this

theorem spendOf_pos {df : List CItem} {k : String} (hk : k ∈ keysOf df)
    (hpos : ∀ it ∈ df, 0 < it.total_price) : 0 < spendOf df k := by
  unfold spendOf
  apply sum_prices_pos (grp_ne_nil hk)
  intro it hit
  exact hpos it (grp_subset hit)

/-! ## Quadrant assignment -/

theorem assign_quadrant_iff (pc sn : ℚ) :
    (assign_quadrant pc sn = "Strategic Partners" ↔ 1/2 ≤ pc ∧ 1/2 ≤ sn) ∧
    (assign_quadrant pc sn = "Leverage Opportunities" ↔ 1/2 ≤ pc ∧ sn < 1/2) ∧
    (assign_quadrant pc sn = "Critical Negotiation" ↔ pc < 1/2 ∧ 1/2 ≤ sn) ∧
    (assign_quadrant pc sn = "Rationalize/Exit" ↔ pc < 1/2 ∧ sn < 1/2) := by
  unfold assign_quadrant
  split_ifs with h1 h2 h3
  · exact ⟨iff_of_true rfl ⟨h1.1, h1.2⟩,
      iff_of_false (by simp) (fun hx => absurd h1.2 (not_le.mpr hx.2)),
      iff_of_false (by simp) (fun hx => absurd h1.1 (not_le.mpr hx.1)),
      iff_of_false (by simp) (fun hx => absurd h1.1 (not_le.mpr hx.1))⟩
  · exact ⟨iff_of_false (by simp) (fun hx => absurd hx.2 (not_le.mpr h2.2)),
      iff_of_true rfl ⟨h2.1, h2.2⟩,
      iff_of_false (by simp) (fun hx => absurd h2.1 (not_le.mpr hx.1)),
      iff_of_false (by simp) (fun hx => absurd h2.1 (not_le.mpr hx.1))⟩
  · exact ⟨iff_of_false (by simp) (fun hx => absurd hx.1 (not_le.mpr h3.1)),
      iff_of_false (by simp) (fun hx => absurd hx.1 (not_le.mpr h3.1)),
      iff_of_true rfl ⟨h3.1, h3.2⟩,
      iff_of_false (by simp) (fun hx => absurd h3.2 (not_le.mpr hx.2))⟩
  · have hpc : pc < 1/2 := by
      by_contra hge
      push_neg at hge
      rcases le_or_lt (1/2) sn with hs | hs
      · exact h1 ⟨hge, hs⟩
      · exact h2 ⟨hge, hs⟩
    have hsn : sn < 1/2 := by
      by_contra hge
      push_neg at hge
      exact h3 ⟨hpc, hge⟩
    exact ⟨iff_of_false (by simp) (fun hx => absurd hx.1 (not_le.mpr hpc)),
      iff_of_false (by simp) (fun hx => absurd hx.1 (not_le.mpr hpc)),
      iff_of_false (by simp) (fun hx => absurd hx.2 (not_le.mpr hsn)),
      iff_of_true rfl ⟨hpc, hsn⟩⟩

theorem page_assign_quadrant_iff (pc sn : ℚ) :
    (page_assign_quadrant pc sn = "Strategic Partners" ↔ 1/2 ≤ pc ∧ 1/2 ≤ sn) ∧
    (page_assign_quadrant pc sn = "Leverage Opportunities" ↔ 1/2 ≤ pc ∧ sn < 1/2) ∧
    (page_assign_quadrant pc sn = "Critical Negotiations" ↔ pc < 1/2 ∧ 1/2 ≤ sn) ∧
    (page_assign_quadrant pc sn = "Rationalize/Exit" ↔ pc < 1/2 ∧ sn < 1/2) := by
  unfold page_assign_quadrant
  split_ifs with h1 h2 h3
  · exact ⟨iff_of_true rfl ⟨h1.1, h1.2⟩,
      iff_of_false (by simp) (fun hx => absurd h1.2 (not_le.mpr hx.2)),
      iff_of_false (by simp) (fun hx => absurd h1.1 (not_le.mpr hx.1)),
      iff_of_false (by simp) (fun hx => absurd h1.1 (not_le.mpr hx.1))⟩
  · exact ⟨iff_of_false (by simp) (fun hx => absurd hx.2 (not_le.mpr h2.2)),
      iff_of_true rfl ⟨h2.1, h2.2⟩,
      iff_of_false (by simp) (fun hx => absurd h2.1 (not_le.mpr hx.1)),
      iff_of_false (by simp) (fun hx => absurd h2.1 (not_le.mpr hx.1))⟩
  · exact ⟨iff_of_false (by simp) (fun hx => absurd hx.1 (not_le.mpr h3.1)),
      iff_of_false (by simp) (fun hx => absurd hx.1 (not_le.mpr h3.1)),
      iff_of_true rfl ⟨h3.1, h3.2⟩,
      iff_of_false (by simp) (fun hx => absurd h3.2 (not_le.mpr hx.2))⟩
  · have hpc : pc < 1/2 := by
      by_contra hge
      push_neg at hge
      rcases le_or_lt (1/2) sn with hs | hs
      · exact h1 ⟨hge, hs⟩
      · exact h2 ⟨hge, hs⟩
    have hsn : sn < 1/2 := by
      by_contra hge
      push_neg at hge
      exact h3 ⟨hpc, hge⟩
    exact ⟨iff_of_false (by simp) (fun hx => absurd hx.1 (not_le.mpr hpc)),
      iff_of_false (by simp) (fun hx => absurd hx.1 (not_le.mpr hpc)),
      iff_of_false (by simp) (fun hx => absurd hx.2 (not_le.mpr hsn)),
      iff_of_true rfl ⟨hpc, hsn⟩⟩

/-- Decompose membership in the output of
`calculate_supplier_metrics`. -/
theorem mem_csm {a : Analyzer} {f1 f2 f3 : Option String} {r : SMRow}
    (h : r ∈ calculate_supplier_metrics a f1 f2 f3) :
    ∃ k ∈ keysOf (applyFilters a.itemsClean f1 f2 f3),
      r = sm_row (applyFilters a.itemsClean f1 f2 f3)
            (meanPrice (applyFilters a.itemsClean f1 f2 f3))
            (qmin (rawListOf (applyFilters a.itemsClean f1 f2 f3)))
            (qmax (rawListOf (applyFilters a.itemsClean f1 f2 f3)))
            (qmax (spendListOf (applyFilters a.itemsClean f1 f2 f3))) k := by
  simp only [calculate_supplier_metrics] at h
  split at h
  · cases h
  · rw [sm_rows] at h
    obtain ⟨k, hk, heq⟩ := List.mem_map.mp h
    exact ⟨k, hk, heq.symm⟩

/-- C1 (counterexample): on a concrete two-supplier portfolio the
supplier-positioning calculator of `dashboard_utils.py` emits the
label `'Critical Negotiation'` (singular), which is not among the four
labels the claim lists — in particular not `'Critical
Negotiations'`. -/
theorem C1_counterexample :
    (calculate_supplier_metrics exA none none none).map (fun r => r.quadrant)
        = ["Leverage Opportunities", "Critical Negotiation"]
    ∧ "Critical Negotiation" ∉
        ["Strategic Partners", "Leverage Opportunities",
         "Critical Negotiations", "Rationalize/Exit"] := by
  constructor
  · with_unfolding_all rfl
  · simp

/-- C1 (amended): quadrant assignment is total and exhaustive with the
documented `≥`-side tie-break in both implementations, but the third
label is spelled `'Critical Negotiation'` in
`dashboard_utils.calculate_supplier_metrics` and `'Critical
Negotiations'` in the Strategic-Positioning page's copy. -/
theorem C1_quadrant_total_and_tiebreak :
    (∀ (a : Analyzer) (f1 f2 f3 : Option String),
      ∀ r ∈ calculate_supplier_metrics a f1 f2 f3,
        (r.quadrant = "Strategic Partners"
            ↔ 1/2 ≤ r.price_competitiveness ∧ 1/2 ≤ r.spending_normalized) ∧
        (r.quadrant = "Leverage Opportunities"
            ↔ 1/2 ≤ r.price_competitiveness ∧ r.spending_normalized < 1/2) ∧
        (r.quadrant = "Critical Negotiation"
            ↔ r.price_competitiveness < 1/2 ∧ 1/2 ≤ r.spending_normalized) ∧
        (r.quadrant = "Rationalize/Exit"
            ↔ r.price_competitiveness < 1/2 ∧ r.spending_normalized < 1/2)) ∧
    (∀ pc sn : ℚ,
      (page_assign_quadrant pc sn = "Strategic Partners" ↔ 1/2 ≤ pc ∧ 1/2 ≤ sn) ∧
      (page_assign_quadrant pc sn = "Leverage Opportunities" ↔ 1/2 ≤ pc ∧ sn < 1/2) ∧
      (page_assign_quadrant pc sn = "Critical Negotiations" ↔ pc < 1/2 ∧ 1/2 ≤ sn) ∧
      (page_assign_quadrant pc sn = "Rationalize/Exit" ↔ pc < 1/2 ∧ sn < 1/2)) := by
  constructor
  · intro a f1 f2 f3 r hr
    obtain ⟨k, hk, rfl⟩ := mem_csm hr
    exact assign_quadrant_iff _ _
  · exact page_assign_quadrant_iff

/-- C1 (witness): the amended theorem applied to the concrete supplier
`"A"` of `exA`, which lands in `'Leverage Opportunities'`. -/
theorem C1_witness :
    exRowA ∈ calculate_supplier_metrics exA none none none
    ∧ (exRowA.quadrant = "Leverage Opportunities"
        ↔ 1/2 ≤ exRowA.price_competitiveness
          ∧ exRowA.spending_normalized < 1/2) := by
  have hmem : exRowA ∈ calculate_supplier_metrics exA none none none := by
    with_unfolding_all exact List.Mem.head _
  exact ⟨hmem,
    (C1_quadrant_total_and_tiebreak.1 exA none none none exRowA hmem).2.1⟩

/-- C6: a category filter matching zero rows of the cleaned set —
including values absent from the data — makes both the supplier
positioning calculator and the top-supplier ranking engine return the
explicit empty result (and the ranking engine returns `ok`, i.e. no
exception and no downstream division is attempted). -/
theorem C6_empty_filter_empty_result (a : Analyzer) (f1 f2 f3 : Option String)
    (min_items min_contracts top_n : ℕ)
    (h : applyFilters a.itemsClean f1 f2 f3 = []) :
    calculate_supplier_metrics a f1 f2 f3 = []
    ∧ get_top_suppliers_by_category a f1 f2 f3 min_items min_contracts top_n
        = Except.ok [] := by
  constructor
  · simp only [calculate_supplier_metrics]
    rw [if_pos h]
  · simp only [get_top_suppliers_by_category]
    rw [if_pos h]

/-- C6 (witness): the L1 filter value `"XYZ"` matches no row of `exA`;
both calculators return the empty result on it. -/
theorem C6_witness :
    applyFilters exA.itemsClean (some "XYZ") none none = []
    ∧ (calculate_supplier_metrics exA (some "XYZ") none none = []
       ∧ get_top_suppliers_by_category exA (some "XYZ") none none 5 1 3
           = Except.ok []) := by
  have h : applyFilters exA.itemsClean (some "XYZ") none none = [] := by
    with_unfolding_all rfl
  exact ⟨h, C6_empty_filter_empty_result exA (some "XYZ") none none 5 1 3 h⟩

/-- C9: both calculators are pure reads of the analyzer state: in
state-passing form the post-state equals the pre-state, and a second
call with identical arguments returns the identical row list in the
identical order. -/
theorem C9_idempotent_no_mutation (a : Analyzer) (l1 l2 l3 : Option String)
    (min_items min_contracts top_n : ℕ) (f1 f2 f3 : Option String) :
    (get_top_suppliers_st a l1 l2 l3 min_items min_contracts top_n).2 = a
    ∧ (get_top_suppliers_st
        (get_top_suppliers_st a l1 l2 l3 min_items min_contracts top_n).2
        l1 l2 l3 min_items min_contracts top_n).1
      = (get_top_suppliers_st a l1 l2 l3 min_items min_contracts top_n).1
    ∧ (calculate_supplier_metrics_st a f1 f2 f3).2 = a
    ∧ (calculate_supplier_metrics_st
        (calculate_supplier_metrics_st a f1 f2 f3).2 f1 f2 f3).1
      = (calculate_supplier_metrics_st a f1 f2 f3).1 :=
  ⟨rfl, rfl, rfl, rfl⟩

/-- C10: the name standardizer resolves ids through `int(float(id))`:
ids with equal truncated numeric values receive the same display name;
an unconvertible (or NaN) id resolves, without raising, to the
`Invalid_Supplier_<raw>` sentinel; and every downstream grouping is by
display name, so the positioning calculator emits at most one row per
display name. -/
theorem C10_id_truncation_and_sentinel :
    (∀ (mapping : ℤ → Option String) (s1 s2 : RawId) (q1 q2 : ℚ),
        s1.val = some q1 → s2.val = some q2 → intTrunc q1 = intTrunc q2 →
        map_supplier_id_to_name mapping s1 = map_supplier_id_to_name mapping s2)
    ∧ (∀ (mapping : ℤ → Option String) (s : RawId),
        s.val = none →
        map_supplier_id_to_name mapping s = "Invalid_Supplier_" ++ s.rawRepr)
    ∧ (∀ (a : Analyzer) (f1 f2 f3 : Option String),
        ((calculate_supplier_metrics a f1 f2 f3).map
          (fun r => r.supplier_name)).Nodup) := by
  refine ⟨?_, ?_, ?_⟩
  · intro mapping s1 s2 q1 q2 h1 h2 htr
    simp only [map_supplier_id_to_name, h1, h2, htr]
  · intro mapping s h
    simp only [map_supplier_id_to_name, h]
  · intro a f1 f2 f3
    simp only [calculate_supplier_metrics]
    split
    · simp
    · rw [sm_rows, List.map_map]
      have : ((fun r : SMRow => r.supplier_name) ∘
          sm_row (applyFilters a.itemsClean f1 f2 f3)
            (meanPrice (applyFilters a.itemsClean f1 f2 f3))
            (qmin (rawListOf (applyFilters a.itemsClean f1 f2 f3)))
            (qmax (rawListOf (applyFilters a.itemsClean f1 f2 f3)))
            (qmax (spendListOf (applyFilters a.itemsClean f1 f2 f3))))
          = fun k => k := rfl
      rw [this, List.map_id']
      exact keysOf_nodup _

/-- C10 (witness): the raw ids `"12"` and `"12.9"` truncate to the
same integer and resolve to the same display name under the example
mapping, and the NaN id resolves to `"Invalid_Supplier_nan"`. -/
theorem C10_witness :
    map_supplier_id_to_name (supplierMapping exSuppliers) exIdA
        = map_supplier_id_to_name (supplierMapping exSuppliers) exIdB
    ∧ map_supplier_id_to_name (supplierMapping exSuppliers) exIdNaN
        = "Invalid_Supplier_" ++ exIdNaN.rawRepr := by
  constructor
  · exact C10_id_truncation_and_sentinel.1 (supplierMapping exSuppliers)
      exIdA exIdB 12 (129/10) rfl rfl (by with_unfolding_all rfl)
  · exact C10_id_truncation_and_sentinel.2.1 (supplierMapping exSuppliers)
      exIdNaN rfl

/-! ## Normalization lemmas -/

theorem normComp_bounds {minS maxS x : ℚ} (hmin : minS ≤ x) (hmax : x ≤ maxS) :
    0 ≤ normComp minS maxS x ∧ normComp minS maxS x ≤ 1 := by
  unfold normComp
  split_ifs with h
  · have hlt : minS < maxS := lt_of_le_of_ne (hmin.trans hmax) (Ne.symm h)
    have hpos : 0 < maxS - minS := sub_pos.mpr hlt
    have h0 : 0 ≤ (x - minS) / (maxS - minS) :=
      div_nonneg (sub_nonneg.mpr hmin) (le_of_lt hpos)
    have h1 : (x - minS) / (maxS - minS) ≤ 1 :=
      (div_le_one hpos).mpr (by linarith)
    exact ⟨roundTo_nonneg 3 h0, roundTo_le_one 3 h1⟩
  · norm_num

theorem normComp_of_eq {minS maxS : ℚ} (x : ℚ) (h : maxS = minS) :
    normComp minS maxS x = 1/2 := by
  simp [normComp, h]

theorem qmin_eq_qmax {l : List ℚ} (h : ∀ x ∈ l, ∀ y ∈ l, x = y)
    (hne : l ≠ []) : qmax l = qmin l :=
  h (qmax l) (qmax_mem hne) (qmin l) (qmin_mem hne)

/-- Decompose membership in an `ok` output of
`get_top_suppliers_by_category`. -/
theorem mem_top_rows {a : Analyzer} {l1 l2 l3 : Option String}
    {min_items min_contracts top_n : ℕ} {rows : List TopRow} {r : TopRow}
    (hok : get_top_suppliers_by_category a l1 l2 l3 min_items min_contracts top_n
      = Except.ok rows)
    (hr : r ∈ rows) :
    ∃ b ∈ survivorsOf (applyFilters a.itemsClean l1 l2 l3) min_items min_contracts,
      r = top_row (meanPrice (applyFilters a.itemsClean l1 l2 l3))
            (qmin (topRawList (applyFilters a.itemsClean l1 l2 l3) min_items min_contracts))
            (qmax (topRawList (applyFilters a.itemsClean l1 l2 l3) min_items min_contracts))
            (survSpendList (applyFilters a.itemsClean l1 l2 l3) min_items min_contracts).sum
            (qmax (survSpendList (applyFilters a.itemsClean l1 l2 l3) min_items min_contracts))
            (maxL3Of (applyFilters a.itemsClean l1 l2 l3) min_items min_contracts)
            (minVolOf (applyFilters a.itemsClean l1 l2 l3) min_items min_contracts)
            (quantileQ (survSpendList (applyFilters a.itemsClean l1 l2 l3) min_items min_contracts) (33/100))
            (quantileQ (survSpendList (applyFilters a.itemsClean l1 l2 l3) min_items min_contracts) (66/100))
            (quantileQ ((survivorsOf (applyFilters a.itemsClean l1 l2 l3) min_items min_contracts).map
              (fun b => (b.contractsCount : ℚ))) (33/100))
            (quantileQ ((survivorsOf (applyFilters a.itemsClean l1 l2 l3) min_items min_contracts).map
              (fun b => (b.contractsCount : ℚ))) (66/100)) b := by
  simp only [get_top_suppliers_by_category] at hok
  split at hok
  · cases hok; cases hr
  · split at hok
    · cases hok; cases hr
    · split at hok
      · cases hok
      · cases hok
        have hr2 : r ∈ (topRowsOf (applyFilters a.itemsClean l1 l2 l3)
            min_items min_contracts).mergeSort
              (fun x y => decide (y.price_competitiveness ≤ x.price_competitiveness)) :=
          (List.take_sublist _ _).subset hr
        have hr3 : r ∈ topRowsOf (applyFilters a.itemsClean l1 l2 l3)
            min_items min_contracts :=
          (List.mergeSort_perm _ _).mem_iff.mp hr2
        obtain ⟨b, hb, heq⟩ := List.mem_map.mp hr3
        exact ⟨b, hb, heq.symm⟩

/-- C4: with all supplier mean prices identical (raw scores have
min = max) every supplier's price-competitiveness is exactly 0.5 and
no division by zero occurs; otherwise min-max normalization keeps all
price-competitiveness values inside [0,1].  Both the positioning
calculator and the top-supplier ranking engine are covered. -/
theorem C4_competitiveness_normalization :
    (∀ (a : Analyzer) (f1 f2 f3 : Option String),
      (∀ r ∈ calculate_supplier_metrics a f1 f2 f3,
        0 ≤ r.price_competitiveness ∧ r.price_competitiveness ≤ 1)
      ∧ ((∀ k ∈ keysOf (applyFilters a.itemsClean f1 f2 f3),
            ∀ k' ∈ keysOf (applyFilters a.itemsClean f1 f2 f3),
            meanPrice (grp (applyFilters a.itemsClean f1 f2 f3) k)
              = meanPrice (grp (applyFilters a.itemsClean f1 f2 f3) k')) →
          ∀ r ∈ calculate_supplier_metrics a f1 f2 f3,
            r.price_competitiveness = 1/2))
    ∧ (∀ (a : Analyzer) (l1 l2 l3 : Option String)
        (min_items min_contracts top_n : ℕ) (rows : List TopRow),
        get_top_suppliers_by_category a l1 l2 l3 min_items min_contracts top_n
          = Except.ok rows →
        (∀ r ∈ rows,
          0 ≤ r.price_competitiveness ∧ r.price_competitiveness ≤ 1)
        ∧ ((∀ b ∈ survivorsOf (applyFilters a.itemsClean l1 l2 l3) min_items min_contracts,
              ∀ b' ∈ survivorsOf (applyFilters a.itemsClean l1 l2 l3) min_items min_contracts,
              b.meanR = b'.meanR) →
            ∀ r ∈ rows, r.price_competitiveness = 1/2)) := by
  constructor
  · intro a f1 f2 f3
    constructor
    · intro r hr
      obtain ⟨k, hk, rfl⟩ := mem_csm hr
      have hmem : rawComp (meanPrice (applyFilters a.itemsClean f1 f2 f3))
          (meanPrice (grp (applyFilters a.itemsClean f1 f2 f3) k))
          ∈ rawListOf (applyFilters a.itemsClean f1 f2 f3) :=
        List.mem_map_of_mem _ hk
      exact normComp_bounds (qmin_le hmem) (le_qmax hmem)
    · intro hmean r hr
      obtain ⟨k, hk, rfl⟩ := mem_csm hr
      have hne : rawListOf (applyFilters a.itemsClean f1 f2 f3) ≠ [] :=
        List.ne_nil_of_mem (List.mem_map_of_mem _ hk)
      have hall : ∀ x ∈ rawListOf (applyFilters a.itemsClean f1 f2 f3),
          ∀ y ∈ rawListOf (applyFilters a.itemsClean f1 f2 f3), x = y := by
        intro x hx y hy
        obtain ⟨kx, hkx, rfl⟩ := List.mem_map.mp hx
        obtain ⟨ky, hky, rfl⟩ := List.mem_map.mp hy
        unfold rawComp
        rw [hmean kx hkx ky hky]
      exact normComp_of_eq _ (qmin_eq_qmax hall hne)
  · intro a l1 l2 l3 min_items min_contracts top_n rows hok
    constructor
    · intro r hr
      obtain ⟨b, hb, rfl⟩ := mem_top_rows hok hr
      have hmem : rawComp (meanPrice (applyFilters a.itemsClean l1 l2 l3)) b.meanR
          ∈ topRawList (applyFilters a.itemsClean l1 l2 l3) min_items min_contracts :=
        List.mem_map_of_mem _ hb
      exact normComp_bounds (qmin_le hmem) (le_qmax hmem)
    · intro hmean r hr
      obtain ⟨b, hb, rfl⟩ := mem_top_rows hok hr
      have hne : topRawList (applyFilters a.itemsClean l1 l2 l3) min_items min_contracts ≠ [] :=
        List.ne_nil_of_mem (List.mem_map_of_mem _ hb)
      have hall : ∀ x ∈ topRawList (applyFilters a.itemsClean l1 l2 l3) min_items min_contracts,
          ∀ y ∈ topRawList (applyFilters a.itemsClean l1 l2 l3) min_items min_contracts,
          x = y := by
        intro x hx y hy
        obtain ⟨bx, hbx, rfl⟩ := List.mem_map.mp hx
        obtain ⟨by', hby, rfl⟩ := List.mem_map.mp hy
        unfold rawComp
        rw [hmean bx hbx by' hby]
      exact normComp_of_eq _ (qmin_eq_qmax hall hne)

/-- C4 (witness): the bound part applied to supplier `"A"` of `exA`,
and the all-tied part applied to the equal-price portfolio `exEq`,
where the competitiveness is exactly 0.5. -/
theorem C4_witness :
    (0 ≤ exRowA.price_competitiveness ∧ exRowA.price_competitiveness ≤ 1)
    ∧ exRowEqA.price_competitiveness = 1/2 := by
  have hmemA : exRowA ∈ calculate_supplier_metrics exA none none none := by
    with_unfolding_all exact List.Mem.head _
  have hmemE : exRowEqA ∈ calculate_supplier_metrics exEq none none none := by
    with_unfolding_all exact List.Mem.head _
  refine ⟨(C4_competitiveness_normalization.1 exA none none none).1 exRowA hmemA,
    (C4_competitiveness_normalization.1 exEq none none none).2 ?_ exRowEqA hmemE⟩
  exact of_decide_eq_true (by with_unfolding_all rfl)

/-- C8: every `ok` output of the top-supplier ranking engine respects
the `min_items`/`min_contracts` thresholds, has at most `top_n` rows,
and is sorted in descending order of price-competitiveness. -/
theorem C8_thresholds_topn_sorted (a : Analyzer) (l1 l2 l3 : Option String)
    (min_items min_contracts top_n : ℕ) (rows : List TopRow)
    (hok : get_top_suppliers_by_category a l1 l2 l3 min_items min_contracts top_n
      = Except.ok rows) :
    (∀ r ∈ rows, min_items ≤ r.items_count ∧ min_contracts ≤ r.contracts_count)
    ∧ rows.length ≤ top_n
    ∧ rows.Chain'
        (fun x y => y.price_competitiveness ≤ x.price_competitiveness) := by
  refine ⟨?_, ?_⟩
  · intro r hr
    obtain ⟨b, hb, rfl⟩ := mem_top_rows hok hr
    rw [survivorsOf, List.mem_filter] at hb
    exact of_decide_eq_true hb.2
  · simp only [get_top_suppliers_by_category] at hok
    split at hok
    · cases hok
      exact ⟨Nat.zero_le _, List.chain'_nil⟩
    · split at hok
      · cases hok
        exact ⟨Nat.zero_le _, List.chain'_nil⟩
      · split at hok
        · cases hok
        · cases hok
          constructor
          · exact List.length_take_le _ _
          · have hpair := @List.sorted_mergeSort TopRow
              (fun x y : TopRow =>
                decide (y.price_competitiveness ≤ x.price_competitiveness))
              (fun x y z h1 h2 => decide_eq_true
                ((of_decide_eq_true h2).trans (of_decide_eq_true h1)))
              (fun x y => by
                rcases le_total y.price_competitiveness x.price_competitiveness
                  with h | h <;> simp [h])
              (topRowsOf (applyFilters a.itemsClean l1 l2 l3)
                min_items min_contracts)
            have hpair2 := hpair.sublist (List.take_sublist top_n _)
            exact (hpair2.imp (fun h => of_decide_eq_true h)).chain'

/-- C8 (witness): the theorem applied to the concrete portfolio
`exTop` with thresholds (5, 1) and `top_n = 3`. -/
theorem C8_witness :
    get_top_suppliers_by_category exTop none none none 5 1 3
        = Except.ok [exTopRow]
    ∧ ((∀ r ∈ [exTopRow], 5 ≤ r.items_count ∧ 1 ≤ r.contracts_count)
       ∧ ([exTopRow] : List TopRow).length ≤ 3
       ∧ List.Chain'
          (fun x y : TopRow => y.price_competitiveness ≤ x.price_competitiveness)
          [exTopRow]) := by
  have hok : get_top_suppliers_by_category exTop none none none 5 1 3
      = Except.ok [exTopRow] := by
    with_unfolding_all rfl
  exact ⟨hok, C8_thresholds_topn_sorted exTop none none none 5 1 3 [exTopRow] hok⟩

/-! ## NaN bookkeeping (claim C2) -/

theorem priceVar_none_iff (g : List CItem) :
    priceVar g = none ↔ g.length < 2 := by
  unfold priceVar
  split_ifs with h
  · constructor
    · intro hh
      exact hh.elim
    · intro hh
      exact absurd hh (by omega)
  · constructor
    · intro _
      omega
    · intro _
      rfl

theorem mem_topBasesOf {df : List CItem} {b : TopBase} (hb : b ∈ topBasesOf df) :
    ∃ k ∈ keysOf df, b = topBase df k := by
  obtain ⟨k, hk, heq⟩ := List.mem_map.mp hb
  exact ⟨k, hk, heq.symm⟩

theorem survivors_subset_bases {df : List CItem} {mi mc : ℕ} {b : TopBase}
    (hb : b ∈ survivorsOf df mi mc) : b ∈ topBasesOf df := by
  rw [survivorsOf, List.mem_filter] at hb
  exact hb.1

theorem minVol_fin_of_vol_fin {df : List CItem} {mi mc : ℕ} {b : TopBase}
    {x : ℚ} (hb : b ∈ survivorsOf df mi mc) (hv : volOf b = FVal.fin x) :
    ∃ m, minVolOf df mi mc = FVal.fin m := by
  unfold minVolOf minVolF
  cases hfm : ((survivorsOf df mi mc).map volOf).filterMap finPart with
  | nil =>
      exfalso
      have hmem : x ∈ ((survivorsOf df mi mc).map volOf).filterMap finPart :=
        List.mem_filterMap.mpr ⟨volOf b, List.mem_map_of_mem _ hb, by rw [hv]; rfl⟩
      rw [hfm] at hmem
      cases hmem
  | cons q qs => exact ⟨_, rfl⟩

/-- C2 (counterexample): on the two-supplier portfolio `exA`, where
each supplier group holds a single item, the positioning calculator's
client-visible `price_std` field is NaN (`none`) for every row —
contradicting the claim that no client-visible field is ever
NaN/Inf. -/
theorem C2_counterexample :
    (calculate_supplier_metrics exA none none none).map
        (fun r => (r.price_std, r.items_count)) = [(none, 1), (none, 1)] := by
  with_unfolding_all rfl

/-- C2 (amended): in the positioning calculator the only NaN is
`price_std`, NaN exactly for single-item supplier groups, and the
divisions there (and in the market overview) have positive
denominators.  In the ranking engine the aggregates are rounded to two
decimals before the derived divisions, so additionally: for a supplier
whose *rounded* mean price is positive, `price_volatility` and
`price_stability` are NaN exactly when its group holds a single item
and are never `+Inf`; for a supplier whose rounded spending is
positive, `market_share_category` and `market_presence` are finite.
When a rounded mean is `0.00` (prices below half a cent) the engine
really does emit NaN or `+Inf` with two-item groups, as the two
concrete evaluations show. -/
theorem C2_nan_inf_characterization :
    (∀ (a : Analyzer) (f1 f2 f3 : Option String),
      ∀ r ∈ calculate_supplier_metrics a f1 f2 f3,
        1 ≤ r.items_count ∧ (r.price_std = none ↔ r.items_count = 1))
    ∧ (∀ (sup : List SupplierRow) (items : List RawItem) (l1 l2 l3 : Option String)
        (min_items min_contracts top_n : ℕ) (rows : List TopRow),
        get_top_suppliers_by_category (mkAnalyzer sup items) l1 l2 l3
            min_items min_contracts top_n = Except.ok rows →
        ∀ r ∈ rows,
          1 ≤ r.items_count
          ∧ (r.price_std = none ↔ r.items_count = 1)
          ∧ (0 < r.avg_price →
              ((r.price_volatility = FVal.nan ↔ r.items_count = 1)
               ∧ r.price_volatility ≠ FVal.pinf
               ∧ (r.price_stability = FVal.nan ↔ r.items_count = 1)
               ∧ r.price_stability ≠ FVal.pinf))
          ∧ (0 < r.total_spending →
              ((∃ q, r.market_share_category = FVal.fin q)
               ∧ (∃ q, r.market_presence = FVal.fin q))))
    ∧ (∀ (sup : List SupplierRow) (items : List RawItem) (f1 f2 f3 : Option String),
        applyFilters (mkAnalyzer sup items).itemsClean f1 f2 f3 ≠ [] →
        0 < meanPrice (applyFilters (mkAnalyzer sup items).itemsClean f1 f2 f3)
        ∧ 0 < qmax (spendListOf (applyFilters (mkAnalyzer sup items).itemsClean f1 f2 f3)))
    ∧ (∀ (sup : List SupplierRow) (items : List RawItem),
        (mkAnalyzer sup items).itemsClean ≠ [] →
        0 < (mkAnalyzer sup items).totalMarketValue)
    ∧ (get_top_suppliers_by_category exSubCent none none none 1 1 3).map
        (List.map (fun r => (r.price_volatility, r.items_count)))
        = Except.ok [(FVal.nan, 2)]
    ∧ (get_top_suppliers_by_category exSubCentInf none none none 1 1 3).map
        (List.map (fun r => r.price_volatility))
        = Except.ok [FVal.pinf] := by
  have hposclean : ∀ (sup : List SupplierRow) (items : List RawItem),
      ∀ it ∈ (mkAnalyzer sup items).itemsClean, 0 < it.total_price := by
    intro sup items it hit
    simp only [mkAnalyzer] at hit
    exact cleanData_pos hit
  refine ⟨?_, ?_, ?_, ?_, ?_, ?_⟩
  · intro a f1 f2 f3 r hr
    obtain ⟨k, hk, rfl⟩ := mem_csm hr
    have hlen : 0 < (grp (applyFilters a.itemsClean f1 f2 f3) k).length :=
      List.length_pos.mpr (grp_ne_nil hk)
    have hiff : priceVar (grp (applyFilters a.itemsClean f1 f2 f3) k) = none
        ↔ (grp (applyFilters a.itemsClean f1 f2 f3) k).length = 1 := by
      rw [priceVar_none_iff]
      omega
    exact ⟨hlen, hiff⟩
  · intro sup items l1 l2 l3 min_items min_contracts top_n rows hok r hr
    have hposf : ∀ it ∈ applyFilters (mkAnalyzer sup items).itemsClean l1 l2 l3,
        0 < it.total_price :=
      fun it hit => hposclean sup items it (applyFilters_subset hit)
    obtain ⟨b, hb, rfl⟩ := mem_top_rows hok hr
    obtain ⟨k, hk, rfl⟩ := mem_topBasesOf (survivors_subset_bases hb)
    have hlen : 0 < (grp (applyFilters (mkAnalyzer sup items).itemsClean l1 l2 l3) k).length :=
      List.length_pos.mpr (grp_ne_nil hk)
    have hstd_iff : (topBase (applyFilters (mkAnalyzer sup items).itemsClean l1 l2 l3) k).priceStd = none
        ↔ (topBase (applyFilters (mkAnalyzer sup items).itemsClean l1 l2 l3) k).itemsCount = 1 := by
      have hiff : priceVar (grp (applyFilters (mkAnalyzer sup items).itemsClean l1 l2 l3) k) = none
          ↔ (grp (applyFilters (mkAnalyzer sup items).itemsClean l1 l2 l3) k).length = 1 := by
        rw [priceVar_none_iff]
        omega
      exact hiff
    refine ⟨hlen, hstd_iff, ?_, ?_⟩
    · intro havg
      have hm : 0 < (topBase (applyFilters (mkAnalyzer sup items).itemsClean l1 l2 l3) k).meanR := havg
      have hmne : (topBase (applyFilters (mkAnalyzer sup items).itemsClean l1 l2 l3) k).meanR ≠ 0 :=
        ne_of_gt hm
      cases hstd : (topBase (applyFilters (mkAnalyzer sup items).itemsClean l1 l2 l3) k).priceStd with
      | none =>
          have hvol : volOf (topBase (applyFilters (mkAnalyzer sup items).itemsClean l1 l2 l3) k)
              = FVal.nan := by
            simp only [volOf, hstd]
          have hitem : (topBase (applyFilters (mkAnalyzer sup items).itemsClean l1 l2 l3) k).itemsCount = 1 :=
            hstd_iff.mp hstd
          have h2 : volOf (topBase (applyFilters (mkAnalyzer sup items).itemsClean l1 l2 l3) k)
              ≠ FVal.pinf := by
            rw [hvol]
            simp
          have h3 : stabF (volOf (topBase (applyFilters (mkAnalyzer sup items).itemsClean l1 l2 l3) k))
              (maxStabF (minVolOf (applyFilters (mkAnalyzer sup items).itemsClean l1 l2 l3)
                min_items min_contracts)) = FVal.nan := by
            rw [hvol]
            rfl
          have h4 : stabF (volOf (topBase (applyFilters (mkAnalyzer sup items).itemsClean l1 l2 l3) k))
              (maxStabF (minVolOf (applyFilters (mkAnalyzer sup items).itemsClean l1 l2 l3)
                min_items min_contracts)) ≠ FVal.pinf := by
            rw [h3]
            simp
          exact ⟨iff_of_true hvol hitem, h2, iff_of_true h3 hitem, h4⟩
      | some v =>
          have hvol : volOf (topBase (applyFilters (mkAnalyzer sup items).itemsClean l1 l2 l3) k)
              = FVal.fin (v / (topBase (applyFilters (mkAnalyzer sup items).itemsClean l1 l2 l3) k).meanR) := by
            simp only [volOf, hstd, if_neg hmne]
          have hitem : ¬(topBase (applyFilters (mkAnalyzer sup items).itemsClean l1 l2 l3) k).itemsCount = 1 := by
            intro h1
            have hn := hstd_iff.mpr h1
            rw [hn] at hstd
            exact Option.noConfusion hstd
          obtain ⟨m, hmv⟩ := minVol_fin_of_vol_fin hb hvol
          have hstab : stabF (volOf (topBase (applyFilters (mkAnalyzer sup items).itemsClean l1 l2 l3) k))
              (maxStabF (minVolOf (applyFilters (mkAnalyzer sup items).itemsClean l1 l2 l3)
                min_items min_contracts))
              = FVal.fin (roundTo 3
                  (1 / (v / (topBase (applyFilters (mkAnalyzer sup items).itemsClean l1 l2 l3) k).meanR + 1/1000)
                    / (1 / (m + 1/1000)))) := by
            rw [hvol, hmv]
            rfl
          have h1 : volOf (topBase (applyFilters (mkAnalyzer sup items).itemsClean l1 l2 l3) k)
              ≠ FVal.nan := by
            rw [hvol]
            simp
          have h2 : volOf (topBase (applyFilters (mkAnalyzer sup items).itemsClean l1 l2 l3) k)
              ≠ FVal.pinf := by
            rw [hvol]
            simp
          have h3 : stabF (volOf (topBase (applyFilters (mkAnalyzer sup items).itemsClean l1 l2 l3) k))
              (maxStabF (minVolOf (applyFilters (mkAnalyzer sup items).itemsClean l1 l2 l3)
                min_items min_contracts)) ≠ FVal.nan := by
            rw [hstab]
            simp
          have h4 : stabF (volOf (topBase (applyFilters (mkAnalyzer sup items).itemsClean l1 l2 l3) k))
              (maxStabF (minVolOf (applyFilters (mkAnalyzer sup items).itemsClean l1 l2 l3)
                min_items min_contracts)) ≠ FVal.pinf := by
            rw [hstab]
            simp
          exact ⟨iff_of_false h1 hitem, h2, iff_of_false h3 hitem, h4⟩
    · intro hsp
      have hsp' : 0 < (topBase (applyFilters (mkAnalyzer sup items).itemsClean l1 l2 l3) k).spendR := hsp
      have hnonneg : ∀ x ∈ survSpendList (applyFilters (mkAnalyzer sup items).itemsClean l1 l2 l3)
          min_items min_contracts, 0 ≤ x := by
        intro x hx
        obtain ⟨b', hb', rfl⟩ := List.mem_map.mp hx
        obtain ⟨k', hk', rfl⟩ := mem_topBasesOf (survivors_subset_bases hb')
        have hpos := spendOf_pos hk' hposf
        exact roundTo_nonneg 2 (le_of_lt hpos)
      have hmemsp : (topBase (applyFilters (mkAnalyzer sup items).itemsClean l1 l2 l3) k).spendR
          ∈ survSpendList (applyFilters (mkAnalyzer sup items).itemsClean l1 l2 l3)
              min_items min_contracts :=
        List.mem_map_of_mem _ hb
      have hsum : 0 < (survSpendList (applyFilters (mkAnalyzer sup items).itemsClean l1 l2 l3)
          min_items min_contracts).sum :=
        lt_of_lt_of_le hsp' (List.single_le_sum hnonneg _ hmemsp)
      have hmax : 0 < qmax (survSpendList (applyFilters (mkAnalyzer sup items).itemsClean l1 l2 l3)
          min_items min_contracts) :=
        lt_of_lt_of_le hsp' (le_qmax hmemsp)
      constructor
      · refine ⟨roundTo 2 ((topBase (applyFilters (mkAnalyzer sup items).itemsClean l1 l2 l3) k).spendR
            / (survSpendList (applyFilters (mkAnalyzer sup items).itemsClean l1 l2 l3)
                min_items min_contracts).sum * 100), ?_⟩
        show (if (survSpendList (applyFilters (mkAnalyzer sup items).itemsClean l1 l2 l3)
              min_items min_contracts).sum = 0 then FVal.nan
            else FVal.fin (roundTo 2
              ((topBase (applyFilters (mkAnalyzer sup items).itemsClean l1 l2 l3) k).spendR
                / (survSpendList (applyFilters (mkAnalyzer sup items).itemsClean l1 l2 l3)
                    min_items min_contracts).sum * 100))) = _
        rw [if_neg (ne_of_gt hsum)]
      · refine ⟨roundTo 3 ((topBase (applyFilters (mkAnalyzer sup items).itemsClean l1 l2 l3) k).spendR
            / qmax (survSpendList (applyFilters (mkAnalyzer sup items).itemsClean l1 l2 l3)
                min_items min_contracts)), ?_⟩
        show (if qmax (survSpendList (applyFilters (mkAnalyzer sup items).itemsClean l1 l2 l3)
              min_items min_contracts) = 0 then FVal.nan
            else FVal.fin (roundTo 3
              ((topBase (applyFilters (mkAnalyzer sup items).itemsClean l1 l2 l3) k).spendR
                / qmax (survSpendList (applyFilters (mkAnalyzer sup items).itemsClean l1 l2 l3)
                    min_items min_contracts)))) = _
        rw [if_neg (ne_of_gt hmax)]
  · intro sup items f1 f2 f3 hne
    have hpos : ∀ it ∈ applyFilters (mkAnalyzer sup items).itemsClean f1 f2 f3,
        0 < it.total_price := by
      intro it hit
      exact hposclean sup items it (applyFilters_subset hit)
    constructor
    · exact meanPrice_pos hne hpos
    · obtain ⟨it, hit⟩ := List.exists_mem_of_ne_nil _ hne
      have hkey := supplier_mem_keysOf hit
      have hsp := spendOf_pos hkey hpos
      have hmem : spendOf (applyFilters (mkAnalyzer sup items).itemsClean f1 f2 f3)
          it.supplier ∈ spendListOf (applyFilters (mkAnalyzer sup items).itemsClean f1 f2 f3) :=
        List.mem_map_of_mem _ hkey
      exact lt_of_lt_of_le hsp (le_qmax hmem)
  · intro sup items hne
    have : (mkAnalyzer sup items).totalMarketValue
        = (((mkAnalyzer sup items).itemsClean).map (fun it => it.total_price)).sum := rfl
    rw [this]
    exact sum_prices_pos hne (hposclean sup items)
  · with_unfolding_all rfl
  · with_unfolding_all rfl

/-- C2 (witness): the amended theorem applied to the single-item rows
of `exA` (std NaN), to the five-item row of `exTop` (positive rounded
mean, hence std/volatility/stability all non-NaN and non-Inf), and to
the positive denominators of `exA`'s filtered set. -/
theorem C2_witness :
    (1 ≤ exRowA.items_count ∧ (exRowA.price_std = none ↔ exRowA.items_count = 1))
    ∧ (1 ≤ exTopRow.items_count
       ∧ (exTopRow.price_std = none ↔ exTopRow.items_count = 1)
       ∧ ((exTopRow.price_volatility = FVal.nan ↔ exTopRow.items_count = 1)
          ∧ exTopRow.price_volatility ≠ FVal.pinf
          ∧ (exTopRow.price_stability = FVal.nan ↔ exTopRow.items_count = 1)
          ∧ exTopRow.price_stability ≠ FVal.pinf))
    ∧ (0 < meanPrice (applyFilters (mkAnalyzer exSuppliers exItemsA).itemsClean
          none none none)
       ∧ 0 < qmax (spendListOf (applyFilters
          (mkAnalyzer exSuppliers exItemsA).itemsClean none none none))) := by
  have hmemA : exRowA ∈ calculate_supplier_metrics exA none none none := by
    with_unfolding_all exact List.Mem.head _
  have hok : get_top_suppliers_by_category (mkAnalyzer exSuppliers exItemsTop)
      none none none 5 1 3 = Except.ok [exTopRow] := by
    with_unfolding_all rfl
  have havg : (0 : ℚ) < exTopRow.avg_price := by
    rw [show exTopRow.avg_price = 102 from rfl]
    norm_num
  have hlen : (applyFilters (mkAnalyzer exSuppliers exItemsA).itemsClean
      none none none).length = 2 := by
    with_unfolding_all rfl
  have hne : applyFilters (mkAnalyzer exSuppliers exItemsA).itemsClean
      none none none ≠ [] := by
    intro h
    rw [h] at hlen
    simp at hlen
  have h2 := C2_nan_inf_characterization.2.1 exSuppliers exItemsTop none none none
    5 1 3 [exTopRow] hok exTopRow (List.mem_cons_self _ _)
  exact ⟨C2_nan_inf_characterization.1 exA none none none exRowA hmemA,
    ⟨h2.1, h2.2.1, h2.2.2.1 havg⟩,
    C2_nan_inf_characterization.2.2.1 exSuppliers exItemsA none none none hne⟩

/-- C7: on a filtered set in which every surviving supplier's L3
classification is missing (`max_l3_categories = 0`), the ranking
engine does not return `category_coverage = 0`: the fallback branch
`(... else 0).round(3)` calls `.round` on the Python `int` `0` and the
whole call raises `AttributeError`, contradicting the documented
behaviour — a code bug.  Additionally, whenever `max_l3_categories` is
positive every row's `category_coverage` is
`round3(l3_categories / max_l3_categories)`, as the spec states. -/
theorem C7_coverage_crash_when_max_l3_zero :
    get_top_suppliers_by_category exNoL3 none none none 5 1 3
        = Except.error "AttributeError: int object has no attribute round"
    ∧ (∀ (a : Analyzer) (l1 l2 l3 : Option String)
        (min_items min_contracts top_n : ℕ) (rows : List TopRow),
        get_top_suppliers_by_category a l1 l2 l3 min_items min_contracts top_n
          = Except.ok rows →
        ∀ r ∈ rows,
          r.category_coverage
            = roundTo 3 ((r.l3_categories : ℚ)
                / (maxL3Of (applyFilters a.itemsClean l1 l2 l3)
                    min_items min_contracts : ℚ))) := by
  constructor
  · with_unfolding_all rfl
  · intro a l1 l2 l3 min_items min_contracts top_n rows hok r hr
    obtain ⟨b, hb, rfl⟩ := mem_top_rows hok hr
    rfl

/-! ## Monotonicity of the rounding, and the market-share sum -/

theorem rhe_lb (q : ℚ) : ⌊q⌋ ≤ rhe q := by
  unfold rhe
  split_ifs <;> omega

theorem rhe_ub (q : ℚ) : rhe q ≤ ⌊q⌋ + 1 := by
  unfold rhe
  split_ifs <;> omega

theorem rhe_mono {q r : ℚ} (h : q ≤ r) : rhe q ≤ rhe r := by
  have hf : ⌊q⌋ ≤ ⌊r⌋ := Int.floor_le_floor h
  rcases lt_or_eq_of_le hf with hlt | heq
  · have h1 := rhe_ub q
    have h2 := rhe_lb r
    omega
  · have hql : (⌊q⌋ : ℚ) ≤ q := Int.floor_le q
    unfold rhe
    rw [← heq]
    split_ifs with a1 a2 a3 b1 b2 b3 <;> try omega
    all_goals linarith

theorem roundTo_mono (d : ℕ) {q r : ℚ} (h : q ≤ r) :
    roundTo d q ≤ roundTo d r := by
  unfold roundTo
  have hp : (0 : ℚ) < (10 : ℚ) ^ d := by positivity
  have hm : q * (10 : ℚ) ^ d ≤ r * (10 : ℚ) ^ d := by nlinarith
  have := rhe_mono hm
  have hcast : (rhe (q * (10 : ℚ) ^ d) : ℚ) ≤ (rhe (r * (10 : ℚ) ^ d) : ℚ) := by
    exact_mod_cast this
  gcongr

theorem sum_abs_diff_le {α : Type} (l : List α) (f g : α → ℚ) (c : ℚ)
    (h : ∀ x ∈ l, |f x - g x| ≤ c) :
    |(l.map f).sum - (l.map g).sum| ≤ l.length * c := by
  induction l with
  | nil => simp
  | cons x xs ih =>
      have hx := h x (List.mem_cons_self x xs)
      have hxs := ih (fun y hy => h y (List.mem_cons_of_mem x hy))
      simp only [List.map_cons, List.sum_cons, List.length_cons]
      have htri : |f x + (xs.map f).sum - (g x + (xs.map g).sum)|
          ≤ |f x - g x| + |(xs.map f).sum - (xs.map g).sum| := by
        have := abs_add (f x - g x) ((xs.map f).sum - (xs.map g).sum)
        have harr : f x + (xs.map f).sum - (g x + (xs.map g).sum)
            = (f x - g x) + ((xs.map f).sum - (xs.map g).sum) := by ring
        rw [harr]
        exact this
      have hc : (0 : ℚ) ≤ c := le_trans (abs_nonneg _) hx
      calc |f x + (xs.map f).sum - (g x + (xs.map g).sum)|
          ≤ |f x - g x| + |(xs.map f).sum - (xs.map g).sum| := htri
        _ ≤ c + (xs.length : ℚ) * c := add_le_add hx hxs
        _ = ((xs.length : ℚ) + 1) * c := by ring
        _ = ((xs.length + 1 : ℕ) : ℚ) * c := by push_cast; ring

/-- Decompose membership in the supplier market-share series of the
market overview. -/
theorem mem_market_share {a : Analyzer} {p : String × ℚ}
    (hp : p ∈ (calculate_market_overview a).supplier_market_share) :
    p.1 ∈ keysOf a.itemsClean
    ∧ p.2 = roundTo 2 (spendOf a.itemsClean p.1 / a.totalMarketValue * 100) := by
  have heq : (calculate_market_overview a).supplier_market_share
      = (sortPairsDesc ((keysOf a.itemsClean).map
          (fun k => (k, spendOf a.itemsClean k)))).map
          (fun q => (q.1, roundTo 2 (q.2 / a.totalMarketValue * 100))) := rfl
  rw [heq] at hp
  obtain ⟨q, hq, hpe⟩ := List.mem_map.mp hp
  have hq2 : q ∈ (keysOf a.itemsClean).map
      (fun k => (k, spendOf a.itemsClean k)) :=
    (List.mergeSort_perm _ _).mem_iff.mp hq
  obtain ⟨k, hk, hqe⟩ := List.mem_map.mp hq2
  rw [← hpe, ← hqe]
  exact ⟨hk, rfl⟩

/-- C3 (counterexample): with three equal suppliers each share rounds
to 33.33 and the returned shares sum to 99.99, which differs from 100
by 0.01 — far beyond floating-point tolerance (taking 1/1000 as a
generous bound for it). -/
theorem C3_counterexample :
    ((calculate_market_overview exC3).supplier_market_share.map
        (fun p => p.2)).sum = 9999/100
    ∧ ¬(|((calculate_market_overview exC3).supplier_market_share.map
        (fun p => p.2)).sum - 100| ≤ 1/1000) := by
  have h : ((calculate_market_overview exC3).supplier_market_share.map
      (fun p => p.2)).sum = 9999/100 := by
    with_unfolding_all rfl
  refine ⟨h, ?_⟩
  rw [h, abs_le]
  intro hc
  linarith [hc.1]

/-- C3 (amended): each returned share is the two-decimal rounding of
(supplier spend / portfolio spend × 100); the list is in descending
order; the *unrounded* shares sum to exactly 100; and the returned
(rounded) shares sum to 100 within n/200 where n is the number of
suppliers (each rounding moves a share by at most 0.005). -/
theorem C3_market_share_formula_desc_sum (sup : List SupplierRow)
    (items : List RawItem)
    (hne : (mkAnalyzer sup items).itemsClean ≠ []) :
    (∀ p ∈ (calculate_market_overview (mkAnalyzer sup items)).supplier_market_share,
        p.2 = roundTo 2 (spendOf (mkAnalyzer sup items).itemsClean p.1
            / (mkAnalyzer sup items).totalMarketValue * 100))
    ∧ List.Chain' (fun x y : String × ℚ => y.2 ≤ x.2)
        (calculate_market_overview (mkAnalyzer sup items)).supplier_market_share
    ∧ (((calculate_market_overview (mkAnalyzer sup items)).supplier_market_share).map
        (fun p => spendOf (mkAnalyzer sup items).itemsClean p.1
            / (mkAnalyzer sup items).totalMarketValue * 100)).sum = 100
    ∧ |(((calculate_market_overview (mkAnalyzer sup items)).supplier_market_share).map
        (fun p => p.2)).sum - 100|
      ≤ (((calculate_market_overview (mkAnalyzer sup items)).supplier_market_share).length : ℚ)
          * (1/200) := by
  have hpos : ∀ it ∈ (mkAnalyzer sup items).itemsClean, 0 < it.total_price := by
    intro it hit
    simp only [mkAnalyzer] at hit
    exact cleanData_pos hit
  have htotdef : (mkAnalyzer sup items).totalMarketValue
      = (((mkAnalyzer sup items).itemsClean).map (fun it => it.total_price)).sum := rfl
  have htot : 0 < (mkAnalyzer sup items).totalMarketValue := by
    rw [htotdef]
    exact sum_prices_pos hne hpos
  have heq : (calculate_market_overview (mkAnalyzer sup items)).supplier_market_share
      = (sortPairsDesc ((keysOf (mkAnalyzer sup items).itemsClean).map
          (fun k => (k, spendOf (mkAnalyzer sup items).itemsClean k)))).map
          (fun q => (q.1, roundTo 2
            (q.2 / (mkAnalyzer sup items).totalMarketValue * 100))) := rfl
  have hformula : ∀ p ∈ (calculate_market_overview (mkAnalyzer sup items)).supplier_market_share,
      p.2 = roundTo 2 (spendOf (mkAnalyzer sup items).itemsClean p.1
          / (mkAnalyzer sup items).totalMarketValue * 100) :=
    fun p hp => (mem_market_share hp).2
  refine ⟨hformula, ?_, ?_, ?_⟩
  · -- descending order
    rw [heq]
    have hpair := @List.sorted_mergeSort (String × ℚ)
      (fun x y : String × ℚ => decide (y.2 ≤ x.2))
      (fun x y z h1 h2 => decide_eq_true
        ((of_decide_eq_true h2).trans (of_decide_eq_true h1)))
      (fun x y => by rcases le_total y.2 x.2 with h | h <;> simp [h])
      ((keysOf (mkAnalyzer sup items).itemsClean).map
        (fun k => (k, spendOf (mkAnalyzer sup items).itemsClean k)))
    have hpair2 : List.Pairwise (fun x y : String × ℚ => y.2 ≤ x.2)
        (sortPairsDesc ((keysOf (mkAnalyzer sup items).itemsClean).map
          (fun k => (k, spendOf (mkAnalyzer sup items).itemsClean k)))) :=
      hpair.imp (fun h => of_decide_eq_true h)
    have hmap : List.Pairwise (fun x y : String × ℚ => y.2 ≤ x.2)
        ((sortPairsDesc ((keysOf (mkAnalyzer sup items).itemsClean).map
          (fun k => (k, spendOf (mkAnalyzer sup items).itemsClean k)))).map
          (fun q : String × ℚ => (q.1, roundTo 2
            (q.2 / (mkAnalyzer sup items).totalMarketValue * 100)))) :=
      List.Pairwise.map _
        (fun x y (hxy : y.2 ≤ x.2) => by
          show roundTo 2 (y.2 / (mkAnalyzer sup items).totalMarketValue * 100)
            ≤ roundTo 2 (x.2 / (mkAnalyzer sup items).totalMarketValue * 100)
          apply roundTo_mono
          gcongr)
        hpair2
    exact hmap.chain'
  · -- unrounded sum is exactly 100
    rw [heq, List.map_map]
    have hfst : ((fun p : String × ℚ =>
        spendOf (mkAnalyzer sup items).itemsClean p.1
          / (mkAnalyzer sup items).totalMarketValue * 100) ∘
        (fun q : String × ℚ => (q.1, roundTo 2
          (q.2 / (mkAnalyzer sup items).totalMarketValue * 100))))
        = (fun q : String × ℚ =>
            spendOf (mkAnalyzer sup items).itemsClean q.1
              / (mkAnalyzer sup items).totalMarketValue * 100) := rfl
    rw [hfst]
    rw [sortPairsDesc]
    have hperm := (List.mergeSort_perm
      ((keysOf (mkAnalyzer sup items).itemsClean).map
        (fun k => (k, spendOf (mkAnalyzer sup items).itemsClean k)))
      (fun a b : String × ℚ => decide (b.2 ≤ a.2))).map
      (fun q : String × ℚ =>
        spendOf (mkAnalyzer sup items).itemsClean q.1
          / (mkAnalyzer sup items).totalMarketValue * 100)
    rw [hperm.sum_eq, List.map_map]
    have hcomp : ((fun q : String × ℚ =>
        spendOf (mkAnalyzer sup items).itemsClean q.1
          / (mkAnalyzer sup items).totalMarketValue * 100) ∘
        (fun k => (k, spendOf (mkAnalyzer sup items).itemsClean k)))
        = (fun k => spendOf (mkAnalyzer sup items).itemsClean k
            * (100 / (mkAnalyzer sup items).totalMarketValue)) := by
      funext k
      show spendOf (mkAnalyzer sup items).itemsClean k
          / (mkAnalyzer sup items).totalMarketValue * 100
        = spendOf (mkAnalyzer sup items).itemsClean k
            * (100 / (mkAnalyzer sup items).totalMarketValue)
      ring
    rw [hcomp, List.sum_map_mul_right, sum_spend_keysOf, ← htotdef]
    field_simp
  · -- rounded sum within n/200 of 100
    have h100 : (((calculate_market_overview (mkAnalyzer sup items)).supplier_market_share).map
        (fun p => spendOf (mkAnalyzer sup items).itemsClean p.1
            / (mkAnalyzer sup items).totalMarketValue * 100)).sum = 100 := by
      rw [heq, List.map_map]
      have hfst : ((fun p : String × ℚ =>
          spendOf (mkAnalyzer sup items).itemsClean p.1
            / (mkAnalyzer sup items).totalMarketValue * 100) ∘
          (fun q : String × ℚ => (q.1, roundTo 2
            (q.2 / (mkAnalyzer sup items).totalMarketValue * 100))))
          = (fun q : String × ℚ =>
              spendOf (mkAnalyzer sup items).itemsClean q.1
                / (mkAnalyzer sup items).totalMarketValue * 100) := rfl
      rw [hfst]
      rw [sortPairsDesc]
      have hperm := (List.mergeSort_perm
        ((keysOf (mkAnalyzer sup items).itemsClean).map
          (fun k => (k, spendOf (mkAnalyzer sup items).itemsClean k)))
        (fun a b : String × ℚ => decide (b.2 ≤ a.2))).map
        (fun q : String × ℚ =>
          spendOf (mkAnalyzer sup items).itemsClean q.1
            / (mkAnalyzer sup items).totalMarketValue * 100)
      rw [hperm.sum_eq, List.map_map]
      have hcomp : ((fun q : String × ℚ =>
          spendOf (mkAnalyzer sup items).itemsClean q.1
            / (mkAnalyzer sup items).totalMarketValue * 100) ∘
          (fun k => (k, spendOf (mkAnalyzer sup items).itemsClean k)))
          = (fun k => spendOf (mkAnalyzer sup items).itemsClean k
              * (100 / (mkAnalyzer sup items).totalMarketValue)) := by
        funext k
        show spendOf (mkAnalyzer sup items).itemsClean k
            / (mkAnalyzer sup items).totalMarketValue * 100
          = spendOf (mkAnalyzer sup items).itemsClean k
              * (100 / (mkAnalyzer sup items).totalMarketValue)
        ring
      rw [hcomp, List.sum_map_mul_right, sum_spend_keysOf, ← htotdef]
      field_simp
    have hdiff := sum_abs_diff_le
      ((calculate_market_overview (mkAnalyzer sup items)).supplier_market_share)
      (fun p => p.2)
      (fun p => spendOf (mkAnalyzer sup items).itemsClean p.1
          / (mkAnalyzer sup items).totalMarketValue * 100)
      (1/200)
      (by
        intro p hp
        have hf := hformula p hp
        rw [abs_le]
        dsimp only
        constructor
        · have := sub_roundTo_le 2
            (spendOf (mkAnalyzer sup items).itemsClean p.1
              / (mkAnalyzer sup items).totalMarketValue * 100)
          rw [hf]
          have h200 : (1 : ℚ) / (2 * 10 ^ 2) = 1/200 := by norm_num
          rw [h200] at this
          linarith
        · have := roundTo_sub_le 2
            (spendOf (mkAnalyzer sup items).itemsClean p.1
              / (mkAnalyzer sup items).totalMarketValue * 100)
          rw [hf]
          have h200 : (1 : ℚ) / (2 * 10 ^ 2) = 1/200 := by norm_num
          rw [h200] at this
          linarith)
    rw [h100] at hdiff
    exact hdiff

/-- C3 (witness): the amended theorem applied to `exA` (two suppliers
with shares 75 and 25): descending order and exact unrounded sum
100. -/
theorem C3_witness :
    (mkAnalyzer exSuppliers exItemsA).itemsClean ≠ []
    ∧ List.Chain' (fun x y : String × ℚ => y.2 ≤ x.2)
        (calculate_market_overview (mkAnalyzer exSuppliers exItemsA)).supplier_market_share
    ∧ (((calculate_market_overview (mkAnalyzer exSuppliers exItemsA)).supplier_market_share).map
        (fun p => spendOf (mkAnalyzer exSuppliers exItemsA).itemsClean p.1
            / (mkAnalyzer exSuppliers exItemsA).totalMarketValue * 100)).sum = 100 := by
  have hlen : (mkAnalyzer exSuppliers exItemsA).itemsClean.length = 2 := by
    with_unfolding_all rfl
  have hne : (mkAnalyzer exSuppliers exItemsA).itemsClean ≠ [] := by
    intro h
    rw [h] at hlen
    simp at hlen
  obtain ⟨_, h2, h3, _⟩ :=
    C3_market_share_formula_desc_sum exSuppliers exItemsA hne
  exact ⟨hne, h2, h3⟩

/-! ## The 80%-control walk (claim C5) -/

theorem control80_go (l : List ℚ) :
    ∀ (cum : ℚ) (cnt : ℕ), cum < 80 → 80 ≤ cum + l.sum →
      ∃ m, 1 ≤ m ∧ m ≤ l.length ∧ control80 cum cnt l = cnt + m
        ∧ 80 ≤ cum + (l.take m).sum ∧ cum + (l.take (m - 1)).sum < 80 := by
  induction l with
  | nil =>
      intro cum cnt h1 h2
      simp only [List.sum_nil, add_zero] at h2
      linarith
  | cons s rest ih =>
      intro cum cnt h1 h2
      by_cases hbr : 80 ≤ cum + s
      · refine ⟨1, le_refl 1, by simp, ?_, ?_, ?_⟩
        · show control80 cum cnt (s :: rest) = cnt + 1
          unfold control80
          rw [if_pos hbr]
        · simpa using hbr
        · simpa using h1
      · push_neg at hbr
        have h2' : 80 ≤ (cum + s) + rest.sum := by
          simp only [List.sum_cons] at h2
          linarith
        obtain ⟨m, hm1, hmlen, heq, h4, h5⟩ := ih (cum + s) (cnt + 1) hbr h2'
        obtain ⟨m', rfl⟩ : ∃ m', m = m' + 1 := ⟨m - 1, by omega⟩
        refine ⟨m' + 2, by omega, by simpa using (by omega : m' + 2 ≤ rest.length + 1), ?_, ?_, ?_⟩
        · show control80 cum cnt (s :: rest) = cnt + (m' + 2)
          unfold control80
          rw [if_neg (not_le.mpr hbr), heq]
          omega
        · have htake : ((s :: rest).take (m' + 2)).sum = s + (rest.take (m' + 1)).sum := by
            simp [List.take_cons]
          rw [htake]
          linarith
        · have htake : ((s :: rest).take (m' + 2 - 1)).sum = s + (rest.take m').sum := by
            simp [List.take_cons]
          rw [htake]
          have h5' : cum + s + (rest.take (m' + 1 - 1)).sum < 80 := h5
          simp only [Nat.add_sub_cancel] at h5'
          linarith

/-- C5 (amended): whenever the returned (rounded) shares reach a total
of at least 80 — which holds in every realistically sized portfolio —
the `control_80_suppliers` count is minimal-inclusive: the first
`count` shares sum to at least 80 and the first `count − 1` to less
than 80. -/
theorem C5_control80_minimal_inclusive (a : Analyzer)
    (hsum : 80 ≤ (((calculate_market_overview a).supplier_market_share).map
      (fun p => p.2)).sum) :
    1 ≤ (calculate_market_overview a).control_80_suppliers
    ∧ (calculate_market_overview a).control_80_suppliers
        ≤ ((calculate_market_overview a).supplier_market_share).length
    ∧ 80 ≤ ((((calculate_market_overview a).supplier_market_share).map
        (fun p => p.2)).take
        (calculate_market_overview a).control_80_suppliers).sum
    ∧ ((((calculate_market_overview a).supplier_market_share).map
        (fun p => p.2)).take
        ((calculate_market_overview a).control_80_suppliers - 1)).sum < 80 := by
  have hc : (calculate_market_overview a).control_80_suppliers
      = control80 0 0 (((calculate_market_overview a).supplier_market_share).map
          (fun p => p.2)) := rfl
  obtain ⟨m, hm1, hmlen, heq, h4, h5⟩ := control80_go
    (((calculate_market_overview a).supplier_market_share).map (fun p => p.2))
    0 0 (by norm_num) (by simpa using hsum)
  rw [hc, heq]
  simp only [Nat.zero_add]
  exact ⟨hm1, by simpa using hmlen, by simpa using h4, by simpa using h5⟩

/-- C5 (witness): on `exA` the shares are 75 and 25; the count is 2,
the first 2 shares reach 100 ≥ 80 and the first 1 only 75 < 80. -/
theorem C5_witness :
    80 ≤ (((calculate_market_overview exA).supplier_market_share).map
        (fun p => p.2)).sum
    ∧ (1 ≤ (calculate_market_overview exA).control_80_suppliers
       ∧ (calculate_market_overview exA).control_80_suppliers
           ≤ ((calculate_market_overview exA).supplier_market_share).length
       ∧ 80 ≤ ((((calculate_market_overview exA).supplier_market_share).map
           (fun p => p.2)).take
           (calculate_market_overview exA).control_80_suppliers).sum
       ∧ ((((calculate_market_overview exA).supplier_market_share).map
           (fun p => p.2)).take
           ((calculate_market_overview exA).control_80_suppliers - 1)).sum < 80) := by
  have h100 : (((calculate_market_overview exA).supplier_market_share).map
      (fun p => p.2)).sum = 100 := by
    with_unfolding_all rfl
  have hsum : 80 ≤ (((calculate_market_overview exA).supplier_market_share).map
      (fun p => p.2)).sum := by
    rw [h100]
    norm_num
  exact ⟨hsum, C5_control80_minimal_inclusive exA hsum⟩

/-! ## The large portfolio on which the 80%-control walk never
reaches 80 -/

theorem filterMap_eq_map_of_some {α β : Type} {f : α → Option β} {g : α → β}
    (h : ∀ a, f a = some (g a)) : ∀ l : List α, l.filterMap f = l.map g := by
  intro l
  induction l with
  | nil => rfl
  | cons x xs ih => simp [List.filterMap_cons, h x, ih]

set_option maxRecDepth 20000 in
theorem bigClean : bigA.itemsClean = (List.range 6667).map bigC := by
  have h1 : bigA.itemsClean = cleanData (standardizeItems [] bigItems) := rfl
  rw [h1, bigItems]
  simp only [standardizeItems]
  rw [List.map_map, cleanData, List.filterMap_map]
  exact filterMap_eq_map_of_some (fun i => by with_unfolding_all rfl) _

theorem bigName_inj : Function.Injective bigName := by
  intro i j h
  have hlen : ∀ n : ℕ, (bigName n).length = 17 + n := by
    intro n
    have h17 : ("Invalid_Supplier_" : String).length = 17 := rfl
    have hrep : (String.mk (List.replicate n 'a')).length = n := by
      show (List.replicate n 'a').length = n
      exact List.length_replicate n 'a'
    show ("Invalid_Supplier_" ++ bigRepr n).length = 17 + n
    rw [String.length_append, h17]
    show 17 + (String.mk (List.replicate n 'a')).length = 17 + n
    rw [hrep]
  have := congrArg String.length h
  rw [hlen i, hlen j] at this
  omega

theorem big_supplier_map :
    ((List.range 6667).map bigC).map (fun it => it.supplier)
      = (List.range 6667).map bigName := by
  rw [List.map_map]
  rfl

theorem big_nodup :
    (((List.range 6667).map bigC).map (fun it => it.supplier)).Nodup := by
  rw [big_supplier_map]
  exact List.Nodup.map bigName_inj (List.nodup_range _)

theorem big_keys_len : (keysOf ((List.range 6667).map bigC)).length = 6667 := by
  unfold keysOf
  rw [(List.mergeSort_perm _ _).length_eq, List.dedup_eq_self.mpr big_nodup,
    big_supplier_map, List.length_map, List.length_range]

theorem filter_beq_singleton {l : List ℕ} (hnd : l.Nodup) {i : ℕ} (hi : i ∈ l) :
    l.filter (fun j => j == i) = [i] := by
  induction l with
  | nil => cases hi
  | cons x xs ih =>
      rcases List.mem_cons.mp hi with rfl | hmem
      · have hnotmem : i ∉ xs := (List.nodup_cons.mp hnd).1
        rw [List.filter_cons]
        simp only [beq_self_eq_true, if_true]
        have hnil : xs.filter (fun j => j == i) = [] := by
          rw [List.filter_eq_nil_iff]
          intro a ha hbeq
          exact hnotmem (by rwa [eq_of_beq hbeq] at ha)
        rw [hnil]
      · have hx : x ≠ i := by
          rintro rfl
          exact (List.nodup_cons.mp hnd).1 hmem
        rw [List.filter_cons]
        have : (x == i) = false := beq_eq_false_iff_ne.mpr hx
        rw [this]
        simp only [Bool.false_eq_true, if_false]
        exact ih (List.nodup_cons.mp hnd).2 hmem

theorem big_spend {k : String} (hk : k ∈ keysOf ((List.range 6667).map bigC)) :
    spendOf ((List.range 6667).map bigC) k = 1 := by
  obtain ⟨it, hit, rfl⟩ := mem_keysOf.mp hk
  obtain ⟨i, hi, rfl⟩ := List.mem_map.mp hit
  unfold spendOf grp
  rw [List.filter_map]
  have hp : ∀ j ∈ List.range 6667,
      ((fun it : CItem => it.supplier == (bigC i).supplier) ∘ bigC) j
        = (fun j => j == i) j := by
    intro j _
    show ((bigC j).supplier == (bigC i).supplier) = (j == i)
    by_cases h : j = i
    · subst h
      simp
    · have hne : bigName j ≠ bigName i := fun hc => h (bigName_inj hc)
      have h1 : ((bigC j).supplier == (bigC i).supplier) = false :=
        beq_eq_false_iff_ne.mpr hne
      have h2 : (j == i) = false := beq_eq_false_iff_ne.mpr h
      rw [h1, h2]
  rw [List.filter_congr hp, filter_beq_singleton (List.nodup_range _) hi]
  simp [bigC]

theorem mkAnalyzer_total_eq (sup : List SupplierRow) (items : List RawItem) :
    (mkAnalyzer sup items).totalMarketValue
      = (((mkAnalyzer sup items).itemsClean).map (fun it => it.total_price)).sum := rfl

theorem big_total : bigA.totalMarketValue = 6667 := by
  have h1 : bigA.totalMarketValue
      = ((bigA.itemsClean).map (fun it => it.total_price)).sum :=
    mkAnalyzer_total_eq [] bigItems
  rw [h1, bigClean, List.map_map]
  have hconst : ((fun it : CItem => it.total_price) ∘ bigC)
      = Function.const ℕ (1 : ℚ) := rfl
  rw [hconst, List.map_const, List.sum_replicate, List.length_range]
  norm_num

set_option maxRecDepth 20000 in
theorem big_shares :
    (calculate_market_overview bigA).supplier_market_share.map (fun p => p.2)
      = List.replicate 6667 (1/100) := by
  rw [List.eq_replicate_iff]
  constructor
  · have heq : (calculate_market_overview bigA).supplier_market_share
        = (sortPairsDesc ((keysOf bigA.itemsClean).map
            (fun k => (k, spendOf bigA.itemsClean k)))).map
            (fun q => (q.1, roundTo 2 (q.2 / bigA.totalMarketValue * 100))) := rfl
    rw [List.length_map, heq, List.length_map, sortPairsDesc,
      (List.mergeSort_perm _ _).length_eq, List.length_map, bigClean,
      big_keys_len]
  · intro b hb
    obtain ⟨p, hp, rfl⟩ := List.mem_map.mp hb
    obtain ⟨hk, hval⟩ := mem_market_share hp
    rw [bigClean] at hk
    have hspend := big_spend hk
    rw [hval, big_total]
    rw [show spendOf bigA.itemsClean p.1
        = spendOf ((List.range 6667).map bigC) p.1 by rw [bigClean]]
    rw [hspend]
    with_unfolding_all rfl

theorem control80_replicate (c : ℚ) (hc : 0 ≤ c) :
    ∀ (m : ℕ) (cum : ℚ) (cnt : ℕ), cum + (m : ℚ) * c < 80 →
      control80 cum cnt (List.replicate m c) = cnt + m := by
  intro m
  induction m with
  | zero => intro cum cnt _; rfl
  | succ m ih =>
      intro cum cnt hlt
      have hmc : (0 : ℚ) ≤ (m : ℚ) * c := by positivity
      have hbr : ¬(80 ≤ cum + c) := by
        push_neg
        have : (m.succ : ℚ) * c = (m : ℚ) * c + c := by push_cast; ring
        rw [this] at hlt
        linarith
      show control80 cum cnt (c :: List.replicate m c) = cnt + (m + 1)
      unfold control80
      rw [if_neg hbr]
      have hih := ih (cum + c) (cnt + 1) (by
        have : (m.succ : ℚ) * c = (m : ℚ) * c + c := by push_cast; ring
        rw [this] at hlt
        linarith)
      rw [hih]
      omega

/-- C5 (counterexample): on a portfolio of 6667 one-item suppliers
with price 1, every rounded share is 0.01, the walk never reaches 80,
and `control_80_suppliers` is returned as 6667 although the cumulative
sum of the first 6667 shares is 66.67 < 80 — the claimed property
"cumulative sum over the first count entries is ≥ 80%" fails. -/
theorem C5_counterexample :
    (calculate_market_overview bigA).control_80_suppliers = 6667
    ∧ ¬(80 ≤ ((((calculate_market_overview bigA).supplier_market_share).map
        (fun p => p.2)).take
        (calculate_market_overview bigA).control_80_suppliers).sum) := by
  have hc : (calculate_market_overview bigA).control_80_suppliers
      = control80 0 0 (((calculate_market_overview bigA).supplier_market_share).map
          (fun p => p.2)) := rfl
  have hc2 : (calculate_market_overview bigA).control_80_suppliers = 6667 := by
    rw [hc, big_shares]
    have := control80_replicate (1/100) (by norm_num) 6667 0 0
      (by norm_num)
    rw [this]
  refine ⟨hc2, ?_⟩
  rw [hc2, big_shares]
  rw [List.take_of_length_le (le_of_eq (List.length_replicate _ _)), List.sum_replicate]
  push_cast [nsmul_eq_mul]
  norm_num

end TelcoDash
